import Mathlib

set_option maxHeartbeats 1000000

/-!
Shallow embedding of the sub-agent orchestration and streaming-reconstruction
subsystem of the OpenChat fork:

* the provider error classifier (`DetectedError`, `shouldTriggerFallback`),
* the sub-agent terminal analysis (`analyzeSubAgentExecution`) and the
  `create_agent` tool `execute` path (validation, boundary emission),
* the consumer-side stream reconstruction
  (`findCreateAgentBoundaries`, `segmentPartsByAgentBoundaries`).

TypeScript numbers indexing arrays are modelled as `Nat` (all indices in the
source are non-negative; the single `segmentStart - 1` that can reach `-1` in
JavaScript is handled below, where truncated subtraction is shown to agree).
Optional fields are `Option`, JavaScript `Map` insertion order is modelled by
an association list, and `Array.from(new Set _)` by first-occurrence
deduplication.
-/

/-! ### Error classifier (src/lib, error utilities) -/

/-- The `DetectedError` record of the error utilities.  The four boolean
flags are optional in the source, hence `Option Bool` (absent = `none`). -/
structure DetectedError where
  errType : String
  provider : String
  message : String
  userFriendlyMessage : String
  isRateLimit : Option Bool := none
  isQuotaExceeded : Option Bool := none
  isInsufficientBalance : Option Bool := none
  isAuthError : Option Bool := none
deriving Repr, DecidableEq

/-- `shouldTriggerFallback`: `Boolean(e.isAuthError) || Boolean(e.isInsufficientBalance)
|| Boolean(e.isQuotaExceeded)`; `Boolean` of an absent field is `false`. -/
def shouldTriggerFallback (detectedError : DetectedError) : Bool :=
  detectedError.isAuthError.getD false ||
  detectedError.isInsufficientBalance.getD false ||
  detectedError.isQuotaExceeded.getD false

/-! ### Sub-agent terminal analysis (src/lib/create-agent-tool.ts) -/

/-- A recorded tool call; the analysis only reads its `toolName`. -/
structure ToolCall where
  toolName : String
deriving Repr, DecidableEq

/-- A captured JavaScript `Error`; the analysis only reads its `message`. -/
structure ErrorValue where
  message : String
deriving Repr, DecidableEq

/-- The `SubAgentAnalysis` record. -/
structure SubAgentAnalysis where
  success : Bool
  toolCallCount : Nat
  toolNames : List String
  finishReason : String
  issues : List String
  summary : String
  errorMessage : Option String
deriving Repr, DecidableEq

/-- The ASCII core of the whitespace class used by JavaScript
`String.prototype.trim()`. -/
def isJsSpace (c : Char) : Bool :=
  c == ' ' || c == '\t' || c == '\n' || c == '\r'

/-- JavaScript `s.trim()`: strip leading and trailing whitespace.  Defined on
the character list so that it evaluates inside the kernel. -/
def jsTrim (s : String) : String :=
  (((s.toList.dropWhile isJsSpace).reverse.dropWhile isJsSpace).reverse).asString

/-- JavaScript `s.toUpperCase()` on the character list. -/
def jsToUpper (s : String) : String :=
  (s.toList.map Char.toUpper).asString

/-- `finalText.slice(0, 300)`. -/
def stringSlice (s : String) (a b : Nat) : String :=
  (((s.toList).drop a).take (b - a)).asString

/-- `subAgentError?.message || "Unknown error"` (an empty message is falsy). -/
def capturedErrorMessage : Option ErrorValue → String
  | some e => if e.message = "" then "Unknown error" else e.message
  | none => "Unknown error"

/-- `analyzeSubAgentExecution` from src/lib/create-agent-tool.ts.  The caller
passes `finalText` already trimmed (the `execute` path trims before calling). -/
def analyzeSubAgentExecution (toolCalls : List ToolCall) (finishReason : String)
    (finalText : String) (subAgentError : Option ErrorValue) : SubAgentAnalysis :=
  let toolCallCount := toolCalls.length
  let toolNames := toolCalls.map (fun tc => tc.toolName)
  let attemptedTools : Bool := decide (0 < toolCallCount)
  let normalFinish : Bool := finishReason == "stop" || finishReason == "length"
  let hasSubstantialOutput : Bool := decide (25 < finalText.length)
  let hasError : Bool := subAgentError.isSome
  let success := attemptedTools && normalFinish && hasSubstantialOutput && !hasError
  let issues : List String := []
  let issues := if hasError then issues ++ ["Error: " ++ capturedErrorMessage subAgentError] else issues
  let issues := if !attemptedTools then issues ++ ["No tools were called"] else issues
  let issues := if finishReason == "error" then issues ++ ["Sub-agent encountered an error"] else issues
  let issues := if finishReason == "tool-calls" then issues ++ ["Sub-agent stopped mid-execution"] else issues
  let issues := if !hasSubstantialOutput then issues ++ ["Insufficient output produced"] else issues
  { success := success
    toolCallCount := toolCallCount
    toolNames := toolNames
    finishReason := finishReason
    issues := issues
    summary := stringSlice finalText 0 300
    errorMessage := subAgentError.map (fun e => e.message) }

/-! ### The create_agent tool execute path (src/lib/create-agent-tool.ts) -/

/-- `input.tool : string | string[]`. -/
inductive ToolFieldInput
  | single (s : String)
  | multiple (l : List String)
deriving Repr, DecidableEq

/-- The validated `CreateAgentInput`. -/
structure CreateAgentInput where
  tool : ToolFieldInput
  task : String
  context : Option String
deriving Repr, DecidableEq

/-- `Array.isArray(input.tool) ? input.tool : [input.tool]`. -/
def toolValuesOf (input : CreateAgentInput) : List String :=
  match input.tool with
  | .single s => [s]
  | .multiple l => l

/-- First-occurrence deduplication with the set of already-seen elements, as
a JavaScript `Set` accumulates insertions. -/
def dedupSeen (seen : List String) : List String → List String
  | [] => []
  | x :: xs =>
    if seen.contains x then dedupSeen seen xs
    else x :: dedupSeen (x :: seen) xs

/-- First-occurrence deduplication, as `Array.from(new Set xs)` produces. -/
def dedupFirst (l : List String) : List String :=
  dedupSeen [] l

/-- The `requestedToolkits` computation: trim, drop empties, uppercase,
then `Array.from(new Set _)`. -/
def normalizeRequestedToolkits (toolValues : List String) : List String :=
  dedupFirst (((toolValues.map jsTrim).filter
    (fun v => decide (0 < v.length))).map jsToUpper)

/-- The options closed over by the returned tool; only the fields the
verified claims touch are retained (identity and available connectors). -/
structure CreateAgentToolOptions where
  userId : Option String
  availableToolkits : List String
deriving Repr, DecidableEq

/-- The `unavailable` list: requested toolkits missing from the
upper-cased available set. -/
def unavailableConnectors (opts : CreateAgentToolOptions) (input : CreateAgentInput) :
    List String :=
  let availableSet := opts.availableToolkits.map jsToUpper
  (normalizeRequestedToolkits (toolValuesOf input)).filter
    (fun slug => !availableSet.contains slug)

/-- Token usage accounting attached to the boundary-end event. -/
structure TokenUsage where
  inputTokens : Nat
  outputTokens : Nat
  totalTokens : Nat
deriving Repr, DecidableEq

/-- The `toolSummary` payload of the boundary-end event. -/
structure ToolSummary where
  toolsUsed : List String
  toolCallCount : Nat
  finishReason : String
  success : Bool
deriving Repr, DecidableEq

/-- One event written to the shared `UIMessageStreamWriter`.  Timestamps are
presentation data and are elided; everything the reconstructor keys on
(`type`, `id`, `boundaryId`, payload) is kept.  `mergedAgentStream` stands for
`writer.merge(result.toUIMessageStream())`. -/
inductive WireEvent
  | boundaryStart (id : String) (boundaryId : String) (task : String)
      (toolkits : List String) (context : Option String)
  | mergedAgentStream
  | boundaryEnd (id : String) (boundaryId : String) (analysis : SubAgentAnalysis)
      (toolSummary : ToolSummary) (tokenUsage : TokenUsage)
deriving Repr, DecidableEq

/-- The observable outcome of the bounded `streamText` generation loop.  Loop
errors never escape: the `onError` callback records them in `subAgentError`
(source lines 308-311), so the loop's result is total data, not an exception. -/
structure RunOutcome where
  finalText : String
  toolCalls : List ToolCall
  finishReason : String
  subAgentError : Option ErrorValue
  tokenUsage : TokenUsage
deriving Repr, DecidableEq

/-- One candidate handler returned by `getComposioTools`; the filter keeps
those that are objects carrying a callable `execute`. -/
structure HandlerCandidate where
  toolName : String
  hasExecutableFn : Bool
deriving Repr, DecidableEq

/-- The `execute` function of the created tool.  I/O collaborators are passed
as data: `rawTools` is what `getComposioTools` returned, `outcome` is what the
generation loop produced (its errors already captured by `onError`), and
`boundaryId` is the freshly minted identifier.  `writer` is the event list
written so far; the result carries the extended writer and the returned
analysis (the source returns it JSON-encoded).  Thrown validation errors are
the `Except.error` branch. -/
def executeCreateAgent (opts : CreateAgentToolOptions) (input : CreateAgentInput)
    (rawTools : List HandlerCandidate) (outcome : RunOutcome) (boundaryId : String)
    (writer : List WireEvent) : Except String (List WireEvent × SubAgentAnalysis) :=
  let requestedToolkits := normalizeRequestedToolkits (toolValuesOf input)
  if requestedToolkits.length = 0 then
    .error "At least one connector toolkit must be specified."
  else if opts.userId.isNone then
    .error "User session required to use connectors."
  else if 0 < (unavailableConnectors opts input).length then
    .error ("Unavailable connectors requested: " ++
      String.intercalate ", " (unavailableConnectors opts input) ++
      ". Enable them in settings and try again.")
  else
    let filteredTools := rawTools.filter (fun c => c.hasExecutableFn)
    if filteredTools.length = 0 then
      .error "No connector tools available for the requested selection."
    else
      let analysis := analyzeSubAgentExecution outcome.toolCalls outcome.finishReason
        (jsTrim outcome.finalText) outcome.subAgentError
      .ok (writer ++
        [ .boundaryStart (boundaryId ++ "-start") boundaryId input.task
            requestedToolkits input.context,
          .mergedAgentStream,
          .boundaryEnd (boundaryId ++ "-end") boundaryId analysis
            ⟨analysis.toolNames, analysis.toolCallCount, analysis.finishReason,
              analysis.success⟩
            outcome.tokenUsage ],
        analysis)

/-! ### Stream reconstruction (src/app/components/chat/message-assistant.tsx) -/

/-- Payload of a `data-agent-boundary` part.  `btype` is the `data.type`
discriminator; the `isAgentBoundaryPart` guard only accepts `"start"` or
`"end"` there. -/
structure BoundaryData where
  btype : String
  agentId : String
  boundaryId : String
  task : Option String := none
  toolkits : Option (List String) := none
  result : Option String := none
deriving Repr, DecidableEq

/-- The `input` payload of a create_agent tool invocation part, as read by
`extractCreateAgentMetadata`: `task` when it is a string, and `tool` as a
string, an array (non-string elements as `none`), or anything else. -/
inductive ToolInputToolField
  | str (s : String)
  | arr (items : List (Option String))
  | otherVal
  | absent
deriving Repr, DecidableEq

/-- The create_agent tool part input object. -/
structure ToolPartInput where
  task : Option String := none
  tool : ToolInputToolField := .absent
deriving Repr, DecidableEq

/-- A message part, restricted to the discriminations the reconstruction
performs: `data-agent-boundary` parts, tool invocation parts (static
`tool-...` and `dynamic-tool` both carry a tool name and optional input),
and everything else (text, reasoning, files, ...). -/
inductive MsgPart
  | dataAgentBoundary (data : BoundaryData)
  | toolInvocation (toolName : String) (input : Option ToolPartInput)
  | otherPart (ty : String)
deriving Repr, DecidableEq

/-- `isAgentBoundaryPart`: a `data-agent-boundary` part whose `data.type` is
`"start"` or `"end"` (the remaining field checks always hold here because
`BoundaryData` carries them by construction). -/
def isAgentBoundaryPart : MsgPart → Bool
  | .dataAgentBoundary d => d.btype == "start" || d.btype == "end"
  | _ => false

/-- `isCreateAgentToolPart`: a tool invocation part whose tool name is
`create_agent`. -/
def isCreateAgentToolPart : MsgPart → Bool
  | .toolInvocation toolName _ => toolName == "create_agent"
  | _ => false

/-- Extracted metadata of a create_agent tool invocation. -/
structure CreateAgentMetadata where
  task : Option String
  toolkits : List String
deriving Repr, DecidableEq

/-- `extractCreateAgentMetadata` from message-assistant.tsx. -/
def extractCreateAgentMetadata : MsgPart → CreateAgentMetadata
  | .toolInvocation _ (some input) =>
    let task :=
      match input.task with
      | some t => if 0 < (jsTrim t).length then some (jsTrim t) else none
      | none => none
    let toolkits :=
      match input.tool with
      | .str s => if 0 < (jsTrim s).length then [jsTrim s] else []
      | .arr items =>
        ((items.filterMap id).map jsTrim).filter (fun s => decide (0 < s.length))
      | _ => []
    ⟨task, toolkits⟩
  | _ => ⟨none, []⟩

/-- The `CreateAgentBoundary` helper record. -/
structure CreateAgentBoundary where
  boundaryId : String
  startIndex : Nat
  endIndex : Nat
  task : String
  toolkits : List String
  result : Option String := none
deriving Repr, DecidableEq

/-- Value stored in the `openBoundaries` map. -/
structure OpenBoundaryInfo where
  startIndex : Nat
  task : String
  toolkits : List String
deriving Repr, DecidableEq

/-- Insertion-ordered map, as a JavaScript `Map`: `set` overwrites in place
(keeping the original insertion position) or appends. -/
def mapSet (k : String) (v : OpenBoundaryInfo) :
    List (String × OpenBoundaryInfo) → List (String × OpenBoundaryInfo)
  | [] => [(k, v)]
  | (k1, v1) :: rest => if k1 = k then (k, v) :: rest else (k1, v1) :: mapSet k v rest

/-- `Map.get`. -/
def mapGet (k : String) : List (String × OpenBoundaryInfo) → Option OpenBoundaryInfo
  | [] => none
  | (k1, v1) :: rest => if k1 = k then some v1 else mapGet k rest

/-- `Map.delete`. -/
def mapErase (k : String) :
    List (String × OpenBoundaryInfo) → List (String × OpenBoundaryInfo)
  | [] => []
  | (k1, v1) :: rest => if k1 = k then rest else (k1, v1) :: mapErase k rest

/-- State threaded through the `parts.forEach` scan of
`findCreateAgentBoundaries`: the closed `boundaries` collected so far and the
insertion-ordered `openBoundaries` map. -/
structure ScanState where
  boundaries : List CreateAgentBoundary
  openBoundaries : List (String × OpenBoundaryInfo)
deriving Repr, DecidableEq

/-- One iteration of the `parts.forEach` scan, at position `index`. -/
def scanStep (st : ScanState) (index : Nat) (part : MsgPart) : ScanState :=
  match part with
  | .dataAgentBoundary d =>
    if (d.btype == "start" || d.btype == "end") && d.agentId == "create_agent" then
      if d.btype == "start" then
        let info : OpenBoundaryInfo := ⟨index, d.task.getD "", d.toolkits.getD []⟩
        { st with openBoundaries := mapSet d.boundaryId info st.openBoundaries }
      else
        match mapGet d.boundaryId st.openBoundaries with
        | some startInfo =>
          { boundaries := st.boundaries ++
              [⟨d.boundaryId, startInfo.startIndex, index, startInfo.task,
                startInfo.toolkits, d.result⟩],
            openBoundaries := mapErase d.boundaryId st.openBoundaries }
        | none => st
    else st
  | _ => st

/-- The scan itself, starting from index `i`. -/
def scanFrom (i : Nat) (st : ScanState) : List MsgPart → ScanState
  | [] => st
  | p :: rest => scanFrom (i + 1) (scanStep st i p) rest

/-- Residual open boundaries flushed after the scan, each closed at
`parts.length - 1` with no result. -/
def residualBoundaries (len : Nat) (openBs : List (String × OpenBoundaryInfo)) :
    List CreateAgentBoundary :=
  openBs.map (fun kv =>
    ⟨kv.1, kv.2.startIndex, len - 1, kv.2.task, kv.2.toolkits, none⟩)

/-- The boundary list before the fallback check and the final sort. -/
def mainBoundaries (parts : List MsgPart) : List CreateAgentBoundary :=
  let st := scanFrom 0 ⟨[], []⟩ parts
  st.boundaries ++ residualBoundaries parts.length st.openBoundaries

/-- The `parts.forEach` of the defensive fallback, carried out from index
`i` over a list whose full length is `len`. -/
def fallbackFrom (len : Nat) (i : Nat) : List MsgPart → List CreateAgentBoundary
  | [] => []
  | p :: rest =>
    (if isCreateAgentToolPart p then
      let md := extractCreateAgentMetadata p
      [⟨"fallback-" ++ toString i, i, len - 1, md.task.getD "", md.toolkits, none⟩]
    else []) ++ fallbackFrom len (i + 1) rest

/-- The defensive fallback: one open-ended boundary per create_agent tool
invocation, spanning from the invocation to the end of the list. -/
def fallbackScan (parts : List MsgPart) : List CreateAgentBoundary :=
  fallbackFrom parts.length 0 parts

/-- Stable insertion into a list sorted by `startIndex` (new element goes
after existing ones with an equal or smaller key). -/
def insertByStart (b : CreateAgentBoundary) :
    List CreateAgentBoundary → List CreateAgentBoundary
  | [] => [b]
  | c :: rest =>
    if c.startIndex ≤ b.startIndex then c :: insertByStart b rest else b :: c :: rest

/-- `boundaries.sort((a, b) => a.startIndex - b.startIndex)` — a stable sort
by `startIndex`, realised as stable insertion sort. -/
def sortByStartIndex (l : List CreateAgentBoundary) : List CreateAgentBoundary :=
  l.foldl (fun acc b => insertByStart b acc) []

/-- `findCreateAgentBoundaries` from message-assistant.tsx. -/
def findCreateAgentBoundaries (parts : List MsgPart) : List CreateAgentBoundary :=
  if parts.length = 0 then []
  else
    let boundaries := mainBoundaries parts
    if boundaries.length = 0 then fallbackScan parts
    else sortByStartIndex boundaries

/-- Segment kind. -/
inductive SegKind
  | normal
  | agent
deriving Repr, DecidableEq

/-- A `MessageSegment`: the `NormalSegment | AgentSegment` union, with
`boundary = some _` exactly on agent segments. -/
structure MessageSegment where
  kind : SegKind
  parts : List MsgPart
  key : String
  startIndex : Nat
  boundary : Option CreateAgentBoundary := none
deriving Repr, DecidableEq

/-- `parts.slice(a, b)` for non-negative bounds. -/
def sliceParts (l : List MsgPart) (a b : Nat) : List MsgPart :=
  (l.drop a).take (b - a)

/-- State threaded through the `agentBoundaries.forEach` loop of
`segmentPartsByAgentBoundaries`. -/
structure SegState where
  segments : List MessageSegment
  cursor : Nat
deriving Repr, DecidableEq

/-- One iteration of the boundary loop, for the boundary at position `bIdx`
of the sorted list.  `Math.max(boundary.endIndex, segmentStart - 1)` can reach
`-1` in JavaScript only when `segmentStart = 0`, where it equals
`max endIndex 0 = endIndex`; truncated `Nat` subtraction agrees. -/
def segStep (parts : List MsgPart) (st : SegState) (bIdx : Nat)
    (boundary : CreateAgentBoundary) : SegState :=
  let segmentStart := max boundary.startIndex st.cursor
  let segmentEnd := max boundary.endIndex (segmentStart - 1)
  let segs1 :=
    if st.cursor < segmentStart then
      let normalParts := sliceParts parts st.cursor segmentStart
      if 0 < normalParts.length then
        st.segments ++
          [⟨.normal, normalParts,
            "normal-" ++ toString st.cursor ++ "-" ++ toString bIdx, st.cursor, none⟩]
      else st.segments
    else st.segments
  let segs2 :=
    if segmentStart ≤ segmentEnd then
      let agentParts := sliceParts parts segmentStart (segmentEnd + 1)
      if 0 < agentParts.length then
        segs1 ++
          [⟨.agent, agentParts,
            "agent-" ++ (if boundary.boundaryId = "" then toString bIdx
              else boundary.boundaryId),
            segmentStart, some boundary⟩]
      else segs1
    else segs1
  ⟨segs2, max st.cursor (boundary.endIndex + 1)⟩

/-- The boundary loop, `bIdx` counting the `forEach` position. -/
def segLoop (parts : List MsgPart) (bIdx : Nat) (st : SegState) :
    List CreateAgentBoundary → SegState
  | [] => st
  | b :: rest => segLoop parts (bIdx + 1) (segStep parts st bIdx b) rest

/-- `segmentPartsByAgentBoundaries` from message-assistant.tsx. -/
def segmentPartsByAgentBoundaries (parts : List MsgPart) : List MessageSegment :=
  if parts.length = 0 then []
  else
    let agentBoundaries := findCreateAgentBoundaries parts
    if agentBoundaries.length = 0 then
      [⟨.normal, parts, "normal-0", 0, none⟩]
    else
      let st := segLoop parts 0 ⟨[], 0⟩ agentBoundaries
      if st.cursor < parts.length then
        st.segments ++
          [⟨.normal, parts.drop st.cursor,
            "normal-" ++ toString st.cursor ++ "-final", st.cursor, none⟩]
      else st.segments

/-- A segment with its render key erased; the key is a React bookkeeping
string, not reconstruction data. -/
def stripKey (s : MessageSegment) : MessageSegment :=
  { s with key := "" }

/-- A plain rate-limit detection, as the generic rate-limit branch of the
classifier produces it: only `isRateLimit` set. -/
def plainRateLimitError : DetectedError :=
  { errType := "RATE_LIMIT", provider := "meta", message := "429 too many requests",
    userFriendlyMessage := "API rate limit exceeded. Please wait before trying again.",
    isRateLimit := some true }

/-- The tool calls of the C4 scenario (`toolCallCount = 2`). -/
def c4ToolCalls : List ToolCall := [⟨"GMAIL_SEND"⟩, ⟨"NOTION_CREATE_PAGE"⟩]

/-- A 100-character output for the C4 scenario. -/
def c4Text : String := String.mk (List.replicate 100 'x')

/-- Concrete options for the C3 witness run. -/
def c3Opts : CreateAgentToolOptions := ⟨some "user-1", ["gmail", "notion"]⟩

/-- Concrete input for the C3 witness run. -/
def c3Input : CreateAgentInput := ⟨.single " Gmail ", "archive my inbox", none⟩

/-- Concrete handler candidates for the C3 witness run. -/
def c3Raw : List HandlerCandidate := [⟨"GMAIL_SEND", true⟩]

/-- A failing run outcome (loop error captured by `onError`). -/
def c3Outcome : RunOutcome :=
  ⟨"partial", [], "error", some ⟨"model exploded"⟩, ⟨0, 0, 0⟩⟩

/-- The analysis the C3 witness run computes. -/
def c3Analysis : SubAgentAnalysis :=
  analyzeSubAgentExecution c3Outcome.toolCalls c3Outcome.finishReason
    (jsTrim c3Outcome.finalText) c3Outcome.subAgentError

/-- The writer contents after the C3 witness run. -/
def c3WOut : List WireEvent :=
  [WireEvent.boundaryStart "b1-start" "b1" "archive my inbox" ["GMAIL"] none,
   WireEvent.mergedAgentStream,
   WireEvent.boundaryEnd "b1-end" "b1" c3Analysis
     ⟨c3Analysis.toolNames, c3Analysis.toolCallCount, c3Analysis.finishReason,
       c3Analysis.success⟩
     c3Outcome.tokenUsage]

/-- Concrete options for the C7 witness: only GMAIL available. -/
def c7Opts : CreateAgentToolOptions := ⟨some "user-1", ["gmail"]⟩

/-- Concrete input for the C7 witness: GMAIL and two unavailable connectors
requested. -/
def c7Input : CreateAgentInput :=
  ⟨.multiple ["Gmail", "Notion", " slack "], "sync tasks", none⟩

/-- A create_agent boundary-start part. -/
def startPart (bid task : String) (toolkits : List String) : MsgPart :=
  .dataAgentBoundary ⟨"start", "create_agent", bid, some task, some toolkits, none⟩

/-- A create_agent boundary-end part. -/
def endPart (bid : String) (result : Option String) : MsgPart :=
  .dataAgentBoundary ⟨"end", "create_agent", bid, none, none, result⟩

/-- A part the boundary scan reacts to: a `data-agent-boundary` part passing
the `isAgentBoundaryPart` guard whose `agentId` is `create_agent`. -/
def isCreateAgentBoundaryMarker : MsgPart → Bool
  | .dataAgentBoundary d =>
    (d.btype == "start" || d.btype == "end") && d.agentId == "create_agent"
  | _ => false

/-- A create_agent boundary-start marker. -/
def isStartBoundaryMarker : MsgPart → Bool
  | .dataAgentBoundary d => d.btype == "start" && d.agentId == "create_agent"
  | _ => false

/-- Index `s` of `parts` holds a create_agent boundary-start for `bid`. -/
def startAt (parts : List MsgPart) (bid : String) (s : Nat) : Prop :=
  ∃ d, parts.get? s = some (MsgPart.dataAgentBoundary d) ∧ d.btype = "start" ∧
    d.agentId = "create_agent" ∧ d.boundaryId = bid

/-- Combined size of a scan state (closed plus open boundaries). -/
def scanSize (st : ScanState) : Nat :=
  st.boundaries.length + st.openBoundaries.length

/-- The C6 scenario: two starts sharing id B1, then an end. -/
def c6Parts : List MsgPart :=
  [startPart "B1" "first task" ["GMAIL"], startPart "B1" "second task" ["NOTION"],
   endPart "B1" (some "r")]

/-- The C1 scenario: two interleaved runs
(B1-start, B2-start, delta, delta, B1-end, B2-end). -/
def c1Parts : List MsgPart :=
  [startPart "B1" "task one" ["GMAIL"], startPart "B2" "task two" ["NOTION"],
   MsgPart.otherPart "delta-b1", MsgPart.otherPart "delta-b2",
   endPart "B1" (some "r1"), endPart "B2" (some "r2")]

/-- The C10 witness scenario: a create_agent tool invocation without its own
markers, followed by a marked boundary. -/
def c10Parts : List MsgPart :=
  [MsgPart.toolInvocation "create_agent" (some ⟨some "legacy task", .str "gmail"⟩),
   startPart "B" "marked task" ["GMAIL"], endPart "B" none]

/-- C2 counterexample prefix: a create_agent tool invocation and a text part,
with no boundary markers yet. -/
def c2P : List MsgPart :=
  [MsgPart.toolInvocation "create_agent" (some ⟨some "legacy", .str "gmail"⟩),
   MsgPart.otherPart "text"]

/-- C2 counterexample full list: the prefix followed by a closed boundary. -/
def c2E : List MsgPart :=
  c2P ++ [startPart "B" "t" ["GMAIL"], endPart "B" none]

/-- C2 witness prefix: a normal part and a closed boundary. -/
def c2WP : List MsgPart :=
  [MsgPart.otherPart "text", startPart "B1" "t" ["GMAIL"], endPart "B1" (some "r")]

/-- C2 witness full list: the prefix plus a trailing normal part. -/
def c2WE : List MsgPart :=
  c2WP ++ [MsgPart.otherPart "tail"]

/-! ## Theorems -/

/-! ### C9: fallback trigger classification -/

/-- Claim C9: `shouldTriggerFallback` returns `true` for a detected provider
error if and only if the error carries the auth-error, insufficient-balance,
or quota-exceeded flag; an error with none of those flags set (in particular a
plain rate-limit error, whatever its `isRateLimit` flag) never triggers the
fallback recommendation. -/
theorem shouldTriggerFallback_spec (e : DetectedError) :
    (shouldTriggerFallback e = true ↔
      (e.isAuthError = some true ∨ e.isInsufficientBalance = some true ∨
        e.isQuotaExceeded = some true)) ∧
    ((e.isAuthError = none ∨ e.isAuthError = some false) →
      (e.isInsufficientBalance = none ∨ e.isInsufficientBalance = some false) →
      (e.isQuotaExceeded = none ∨ e.isQuotaExceeded = some false) →
      shouldTriggerFallback e = false) := by
  obtain ⟨t, p, m, u, rl, q, b, a⟩ := e
  constructor
  · cases a <;> cases b <;> cases q <;>
      simp [shouldTriggerFallback, or_assoc]
  · rintro (rfl | rfl) (rfl | rfl) (rfl | rfl) <;>
      simp [shouldTriggerFallback]

/-- Witness for C9: the plain rate-limit error does not trigger fallback. -/
theorem shouldTriggerFallback_spec_witness :
    shouldTriggerFallback plainRateLimitError = false :=
  (shouldTriggerFallback_spec plainRateLimitError).2
    (Or.inl rfl) (Or.inl rfl) (Or.inl rfl)

/-! ### C4: success conjunction of the terminal analysis -/

/-- Claim C4: the analysis computed on the (trimmed, as the execute path
trims) output succeeds exactly when tools were attempted, the finish reason is
`stop` or `length`, the trimmed output exceeds 25 characters, and no error was
captured; and in the concrete scenario (2 tool calls, `stop`, length-100
output, no error) success holds with an empty issue list. -/
theorem analyzeSubAgentExecution_success_spec (toolCalls : List ToolCall)
    (finishReason finalText : String) (subAgentError : Option ErrorValue) :
    ((analyzeSubAgentExecution toolCalls finishReason (jsTrim finalText)
        subAgentError).success = true ↔
      (0 < toolCalls.length ∧ (finishReason = "stop" ∨ finishReason = "length") ∧
        25 < (jsTrim finalText).length ∧ subAgentError = none)) ∧
    (analyzeSubAgentExecution c4ToolCalls "stop" (jsTrim c4Text) none).success = true ∧
    (analyzeSubAgentExecution c4ToolCalls "stop" (jsTrim c4Text) none).issues = [] := by
  refine ⟨?_, by decide, by decide⟩
  cases subAgentError <;>
    simp [analyzeSubAgentExecution, and_assoc]

/-! ### C5: captured errors force failure and lead the issue list -/

/-- Claim C5: with a captured error the analysis fails regardless of the
other fields, the first issue is the error-derived message, and the issue list
is exactly the fixed-order concatenation: captured-error message, no-tools,
`error` finish, `tool-calls` finish, insufficient output. -/
theorem analyzeSubAgentExecution_error_spec (toolCalls : List ToolCall)
    (finishReason finalText : String) (e : ErrorValue) :
    (analyzeSubAgentExecution toolCalls finishReason finalText (some e)).success =
      false ∧
    (analyzeSubAgentExecution toolCalls finishReason finalText (some e)).issues.head? =
      some ("Error: " ++ (if e.message = "" then "Unknown error" else e.message)) ∧
    (analyzeSubAgentExecution toolCalls finishReason finalText (some e)).issues =
      ["Error: " ++ (if e.message = "" then "Unknown error" else e.message)] ++
      (if toolCalls.length = 0 then ["No tools were called"] else []) ++
      (if finishReason = "error" then ["Sub-agent encountered an error"] else []) ++
      (if finishReason = "tool-calls" then ["Sub-agent stopped mid-execution"] else []) ++
      (if finalText.length ≤ 25 then ["Insufficient output produced"] else []) := by
  by_cases h1 : toolCalls.length = 0 <;>
    by_cases h2 : finishReason = "error" <;>
    by_cases h3 : finishReason = "tool-calls" <;>
    by_cases h4 : finalText.length ≤ 25 <;>
    simp [analyzeSubAgentExecution, capturedErrorMessage, h1, h2, h3, h4,
      Nat.pos_of_ne_zero, Nat.lt_of_not_le, Nat.not_le]


/-! ### C3: a boundary-start is always paired with a boundary-end -/

/-- Claim C3: whenever the execute path completes (it writes the
boundary-start only after all validation; loop errors are captured by
`onError`, not thrown), the writer receives exactly the boundary-start, the
merged sub-agent stream, and a boundary-end with the same `boundaryId`
carrying the terminal analysis; when an error was captured the carried
analysis reports failure and the error message.  Validation failures
(`Except.error`) write nothing at all, so no start is ever left
unterminated. -/
theorem executeCreateAgent_boundary_pairing (opts : CreateAgentToolOptions)
    (input : CreateAgentInput) (rawTools : List HandlerCandidate) (outcome : RunOutcome)
    (boundaryId : String) (writer : List WireEvent) (w2 : List WireEvent)
    (analysis : SubAgentAnalysis)
    (h : executeCreateAgent opts input rawTools outcome boundaryId writer =
      .ok (w2, analysis)) :
    w2 = writer ++
      [WireEvent.boundaryStart (boundaryId ++ "-start") boundaryId input.task
        (normalizeRequestedToolkits (toolValuesOf input)) input.context,
      WireEvent.mergedAgentStream,
      WireEvent.boundaryEnd (boundaryId ++ "-end") boundaryId analysis
        ⟨analysis.toolNames, analysis.toolCallCount, analysis.finishReason,
          analysis.success⟩
        outcome.tokenUsage] ∧
    analysis.errorMessage = outcome.subAgentError.map (fun e => e.message) ∧
    (outcome.subAgentError.isSome = true → analysis.success = false) := by
  simp only [executeCreateAgent] at h
  split at h
  · exact absurd h (by simp)
  · split at h
    · exact absurd h (by simp)
    · split at h
      · exact absurd h (by simp)
      · split at h
        · exact absurd h (by simp)
        · rw [Except.ok.injEq, Prod.mk.injEq] at h
          obtain ⟨rfl, rfl⟩ := h
          refine ⟨rfl, by simp [analyzeSubAgentExecution], ?_⟩
          intro hs
          simp [analyzeSubAgentExecution, hs]

/-- Witness for C3: on a concrete erroring run the writer still receives the
paired start and end events. -/
theorem executeCreateAgent_boundary_pairing_witness :
    c3WOut = [] ++
      [WireEvent.boundaryStart ("b1" ++ "-start") "b1" c3Input.task
        (normalizeRequestedToolkits (toolValuesOf c3Input)) c3Input.context,
      WireEvent.mergedAgentStream,
      WireEvent.boundaryEnd ("b1" ++ "-end") "b1" c3Analysis
        ⟨c3Analysis.toolNames, c3Analysis.toolCallCount, c3Analysis.finishReason,
          c3Analysis.success⟩
        c3Outcome.tokenUsage] ∧
    c3Analysis.errorMessage = c3Outcome.subAgentError.map (fun e => e.message) ∧
    (c3Outcome.subAgentError.isSome = true → c3Analysis.success = false) :=
  executeCreateAgent_boundary_pairing c3Opts c3Input c3Raw c3Outcome "b1" []
    c3WOut c3Analysis rfl

/-! ### C7: fail-closed connector validation -/

/-- Claim C7: when any normalized requested toolkit is missing from the
case-folded available set, the execute path fails with the message listing
every unavailable requested connector; the result does not depend on the
fetched handlers, the run outcome, the boundary id, or the writer (the throw
happens before any of them is used), and every requested-but-unavailable slug
appears in the `unavailable` list the message is built from. -/
theorem executeCreateAgent_fail_closed (opts : CreateAgentToolOptions)
    (input : CreateAgentInput) (rawTools1 rawTools2 : List HandlerCandidate)
    (outcome1 outcome2 : RunOutcome) (bid1 bid2 : String) (w1 w2 : List WireEvent)
    (hne : normalizeRequestedToolkits (toolValuesOf input) ≠ [])
    (huser : opts.userId.isSome = true)
    (hunavail : unavailableConnectors opts input ≠ []) :
    executeCreateAgent opts input rawTools1 outcome1 bid1 w1 =
      .error ("Unavailable connectors requested: " ++
        String.intercalate ", " (unavailableConnectors opts input) ++
        ". Enable them in settings and try again.") ∧
    executeCreateAgent opts input rawTools1 outcome1 bid1 w1 =
      executeCreateAgent opts input rawTools2 outcome2 bid2 w2 ∧
    ∀ slug ∈ normalizeRequestedToolkits (toolValuesOf input),
      slug ∉ opts.availableToolkits.map jsToUpper →
      slug ∈ unavailableConnectors opts input := by
  have hlen : ¬ (normalizeRequestedToolkits (toolValuesOf input)).length = 0 := by
    simpa [List.length_eq_zero] using hne
  have hnone : opts.userId.isNone = false := by
    cases hu : opts.userId <;> simp_all [Option.isSome, Option.isNone]
  have hpos : 0 < (unavailableConnectors opts input).length :=
    List.length_pos.mpr hunavail
  refine ⟨?_, ?_, ?_⟩
  · rw [executeCreateAgent]
    simp [hlen, hnone, hpos]
  · rw [executeCreateAgent, executeCreateAgent]
    simp [hlen, hnone, hpos]
  · intro slug hmem hnotin
    rw [unavailableConnectors, List.mem_filter]
    refine ⟨hmem, ?_⟩
    simpa using hnotin

/-- Witness for C7: resolution fails and the message names both unavailable
connectors (NOTION and SLACK), not just the first. -/
theorem executeCreateAgent_fail_closed_witness :
    executeCreateAgent c7Opts c7Input [] ⟨"", [], "stop", none, ⟨0, 0, 0⟩⟩ "b" [] =
      .error ("Unavailable connectors requested: " ++
        String.intercalate ", " (unavailableConnectors c7Opts c7Input) ++
        ". Enable them in settings and try again.") ∧
    executeCreateAgent c7Opts c7Input [] ⟨"", [], "stop", none, ⟨0, 0, 0⟩⟩ "b" [] =
      executeCreateAgent c7Opts c7Input [⟨"GMAIL_SEND", true⟩]
        ⟨"done", [⟨"GMAIL_SEND"⟩], "stop", none, ⟨1, 1, 2⟩⟩ "b2" [] ∧
    ∀ slug ∈ normalizeRequestedToolkits (toolValuesOf c7Input),
      slug ∉ c7Opts.availableToolkits.map jsToUpper →
      slug ∈ unavailableConnectors c7Opts c7Input :=
  executeCreateAgent_fail_closed c7Opts c7Input []
    [⟨"GMAIL_SEND", true⟩] ⟨"", [], "stop", none, ⟨0, 0, 0⟩⟩
    ⟨"done", [⟨"GMAIL_SEND"⟩], "stop", none, ⟨1, 1, 2⟩⟩ "b" "b2" [] []
    (by decide) (by decide) (by decide)

/-! ### C8: toolkit list normalization -/

/-- Membership in `dedupSeen`: an element survives iff it occurs in the list
and was not already seen. -/
theorem dedupSeen_mem (x : String) :
    ∀ (l seen : List String), x ∈ dedupSeen seen l ↔ x ∈ l ∧ x ∉ seen := by
  intro l
  induction l with
  | nil => intro seen; simp [dedupSeen]
  | cons y ys ih =>
    intro seen
    rw [dedupSeen]
    by_cases hy : seen.contains y
    · rw [if_pos hy, ih]
      have : y ∈ seen := by simpa using hy
      constructor
      · rintro ⟨h1, h2⟩; exact ⟨List.mem_cons_of_mem _ h1, h2⟩
      · rintro ⟨h1, h2⟩
        rcases List.mem_cons.mp h1 with rfl | h1
        · exact absurd this h2
        · exact ⟨h1, h2⟩
    · rw [if_neg hy]
      have hyseen : y ∉ seen := by simpa using hy
      rw [List.mem_cons, ih]
      constructor
      · rintro (rfl | ⟨h1, h2⟩)
        · exact ⟨List.mem_cons_self _ _, hyseen⟩
        · refine ⟨List.mem_cons_of_mem _ h1, fun hc => h2 (List.mem_cons_of_mem _ hc)⟩
      · rintro ⟨h1, h2⟩
        by_cases hxy : x = y
        · exact Or.inl hxy
        · rcases List.mem_cons.mp h1 with rfl | h1
          · exact absurd rfl hxy
          · refine Or.inr ⟨h1, fun hc => ?_⟩
            rcases List.mem_cons.mp hc with h | hc
            · exact hxy h
            · exact h2 hc

/-- `dedupSeen` never emits duplicates. -/
theorem dedupSeen_nodup :
    ∀ (l seen : List String), (dedupSeen seen l).Nodup := by
  intro l
  induction l with
  | nil => intro seen; simp [dedupSeen]
  | cons y ys ih =>
    intro seen
    rw [dedupSeen]
    by_cases hy : seen.contains y
    · rw [if_pos hy]; exact ih seen
    · rw [if_neg hy]
      refine List.nodup_cons.mpr ⟨fun hc => ?_, ih (y :: seen)⟩
      exact ((dedupSeen_mem y ys (y :: seen)).mp hc).2 (List.mem_cons_self _ _)

/-- Membership is preserved by `dedupFirst`. -/
theorem dedupFirst_mem (x : String) (l : List String) :
    x ∈ dedupFirst l ↔ x ∈ l := by
  rw [dedupFirst, dedupSeen_mem]
  simp

/-- `dedupFirst` outputs are duplicate-free. -/
theorem dedupFirst_nodup (l : List String) : (dedupFirst l).Nodup :=
  dedupSeen_nodup l []

/-- Claim C8: membership in the resolved toolkit list is exactly "some raw
requested value trims to a non-empty string whose upper-casing is the member"
— independent of order, casing and surrounding whitespace of the input — the
list is duplicate-free, and the example `["Gmail", " NOTION", "gmail"]`
resolves to `{GMAIL, NOTION}`. -/
theorem normalizeRequestedToolkits_spec (values : List String) (x : String) :
    (x ∈ normalizeRequestedToolkits values ↔
      ∃ raw ∈ values, 0 < (jsTrim raw).length ∧ jsToUpper (jsTrim raw) = x) ∧
    (normalizeRequestedToolkits values).Nodup ∧
    normalizeRequestedToolkits ["Gmail", " NOTION", "gmail"] = ["GMAIL", "NOTION"] := by
  refine ⟨?_, ?_, by decide⟩
  · rw [normalizeRequestedToolkits, dedupFirst_mem]
    simp only [List.mem_map, List.mem_filter, decide_eq_true_eq]
    constructor
    · rintro ⟨v, ⟨⟨raw, hraw, rfl⟩, hlen⟩, rfl⟩
      exact ⟨raw, hraw, hlen, rfl⟩
    · rintro ⟨raw, hraw, hlen, rfl⟩
      exact ⟨jsTrim raw, ⟨⟨raw, hraw, rfl⟩, hlen⟩, rfl⟩
  · exact dedupFirst_nodup _

/-! ### Shared lemmas about the boundary scan -/

/-- Parts that are not create_agent boundary markers leave the scan state
unchanged. -/
theorem scanStep_inert (st : ScanState) (i : Nat) (p : MsgPart)
    (h : isCreateAgentBoundaryMarker p = false) : scanStep st i p = st := by
  cases p with
  | dataAgentBoundary d =>
    simp only [isCreateAgentBoundaryMarker] at h
    simp [scanStep, h]
  | toolInvocation name input => rfl
  | otherPart ty => rfl

/-- A marker-free stretch leaves the scan state unchanged. -/
theorem scanFrom_inert (l : List MsgPart)
    (h : ∀ p ∈ l, isCreateAgentBoundaryMarker p = false) :
    ∀ (i : Nat) (st : ScanState), scanFrom i st l = st := by
  induction l with
  | nil => intro i st; rfl
  | cons p rest ih =>
    intro i st
    rw [scanFrom, scanStep_inert st i p (h p (List.mem_cons_self _ _))]
    exact ih (fun q hq => h q (List.mem_cons_of_mem _ hq)) _ _

/-- The scan distributes over list concatenation. -/
theorem scanFrom_append (l1 l2 : List MsgPart) :
    ∀ (i : Nat) (st : ScanState),
      scanFrom i st (l1 ++ l2) =
        scanFrom (i + l1.length) (scanFrom i st l1) l2 := by
  induction l1 with
  | nil => intro i st; simp [scanFrom]
  | cons p rest ih =>
    intro i st
    rw [List.cons_append, scanFrom, ih, scanFrom]
    have : i + 1 + rest.length = i + (p :: rest).length := by
      simp [List.length_cons]; omega
    rw [this]

/-! ### C6: duplicate starts and dangling ends -/

/-- Claim C6 counterexample: with two starts sharing id `B1` (tasks "first
task" at index 0 and "second task" at index 1) and an end at index 2, the
boundary found keeps the SECOND start's position and metadata — no boundary
retains the first start's index 0 or task. -/
theorem findCreateAgentBoundaries_first_start_counterexample :
    findCreateAgentBoundaries c6Parts =
      [⟨"B1", 1, 2, "second task", ["NOTION"], some "r"⟩] ∧
    ¬ (∃ b ∈ findCreateAgentBoundaries c6Parts,
        b.startIndex = 0 ∧ b.task = "first task") := by
  constructor
  · rfl
  · decide

/-- Claim C6 amended: when two boundary-starts share one id while the first
is still open, the second start OVERWRITES the first (last wins): the
resulting boundary carries the second start's index and metadata.  A
boundary-end with no matching start is a no-op (the event list behaves as if
that part were an inert non-boundary part). -/
theorem findCreateAgentBoundaries_overwrite_spec (bid t1 t2 : String)
    (tk1 tk2 : List String) (r : Option String) (mid : List MsgPart)
    (hmid : ∀ p ∈ mid, isCreateAgentBoundaryMarker p = false) :
    findCreateAgentBoundaries
        (startPart bid t1 tk1 :: (mid ++ [startPart bid t2 tk2, endPart bid r])) =
      [⟨bid, mid.length + 1, mid.length + 2, t2, tk2, r⟩] ∧
    (∀ (tail : List MsgPart) (r2 : Option String),
      findCreateAgentBoundaries (endPart bid r2 :: tail) =
        findCreateAgentBoundaries (MsgPart.otherPart "text" :: tail)) := by
  constructor
  · have hscan :
        scanFrom 0 ⟨[], []⟩
            (startPart bid t1 tk1 :: (mid ++ [startPart bid t2 tk2, endPart bid r])) =
          ⟨[⟨bid, mid.length + 1, mid.length + 2, t2, tk2, r⟩], []⟩ := by
      rw [scanFrom]
      have h1 : scanStep ⟨[], []⟩ 0 (startPart bid t1 tk1) =
          ⟨[], [(bid, ⟨0, t1, tk1⟩)]⟩ := by
        simp [scanStep, startPart, mapSet]
      rw [h1, scanFrom_append, scanFrom_inert mid hmid]
      rw [scanFrom]
      have h2 : scanStep ⟨[], [(bid, ⟨0, t1, tk1⟩)]⟩ (1 + mid.length)
          (startPart bid t2 tk2) =
          ⟨[], [(bid, ⟨1 + mid.length, t2, tk2⟩)]⟩ := by
        simp [scanStep, startPart, mapSet]
      rw [h2, scanFrom]
      have h3 : scanStep ⟨[], [(bid, ⟨1 + mid.length, t2, tk2⟩)]⟩ (1 + mid.length + 1)
          (endPart bid r) =
          ⟨[⟨bid, mid.length + 1, mid.length + 2, t2, tk2, r⟩], []⟩ := by
        simp [scanStep, endPart, mapGet, mapErase]
        omega
      rw [h3, scanFrom]
    rw [findCreateAgentBoundaries]
    rw [if_neg (by simp)]
    simp only [mainBoundaries, hscan, residualBoundaries]
    simp [sortByStartIndex, insertByStart]
  · intro tail r2
    have h1 : scanStep ⟨[], []⟩ 0 (endPart bid r2) = ⟨[], []⟩ := by
      simp [scanStep, endPart, mapGet]
    have h2 : scanStep ⟨[], []⟩ 0 (MsgPart.otherPart "text") = ⟨[], []⟩ := rfl
    rw [findCreateAgentBoundaries, findCreateAgentBoundaries]
    simp only [List.length_cons]
    rw [mainBoundaries, mainBoundaries]
    simp only [List.length_cons, scanFrom, h1, h2]
    rw [fallbackScan, fallbackScan]
    simp only [List.length_cons, fallbackFrom]
    rfl

/-- Witness for the amended C6, at a one-part middle stretch and a concrete
dangling-end list. -/
theorem findCreateAgentBoundaries_overwrite_spec_witness :
    findCreateAgentBoundaries
        (startPart "B1" "first task" ["GMAIL"] ::
          ([MsgPart.otherPart "text"] ++
            [startPart "B1" "second task" ["NOTION"], endPart "B1" (some "done")])) =
      [⟨"B1", 2, 3, "second task", ["NOTION"], some "done"⟩] ∧
    findCreateAgentBoundaries
        (endPart "B9" none :: [startPart "B3" "t" [], endPart "B3" none]) =
      findCreateAgentBoundaries
        (MsgPart.otherPart "text" :: [startPart "B3" "t" [], endPart "B3" none]) :=
  ⟨(findCreateAgentBoundaries_overwrite_spec "B1" "first task" "second task"
      ["GMAIL"] ["NOTION"] (some "done") [MsgPart.otherPart "text"] (by decide)).1,
   (findCreateAgentBoundaries_overwrite_spec "B9" "x" "y" [] [] none []
      (by decide)).2 [startPart "B3" "t" [], endPart "B3" none] none⟩

/-! ### C1: interleaved runs segment by position, not identity -/

/-- Claim C1 counterexample: on the interleaved scenario the reconstruction
does yield two agent segments in first-start order, but the B1 segment is the
contiguous slice of indices 0..4 and so contains B2's start (and B2's delta),
refuting "each segment's parts contain only events belonging to its own
boundary id": a segment containing B2's start is not B2's segment. -/
theorem segmentPartsByAgentBoundaries_identity_counterexample :
    (segmentPartsByAgentBoundaries c1Parts).map stripKey =
      [⟨.agent,
        [startPart "B1" "task one" ["GMAIL"], startPart "B2" "task two" ["NOTION"],
         MsgPart.otherPart "delta-b1", MsgPart.otherPart "delta-b2",
         endPart "B1" (some "r1")], "", 0,
        some ⟨"B1", 0, 4, "task one", ["GMAIL"], some "r1"⟩⟩,
       ⟨.agent, [endPart "B2" (some "r2")], "", 5,
        some ⟨"B2", 1, 5, "task two", ["NOTION"], some "r2"⟩⟩] ∧
    ¬ (∀ s ∈ segmentPartsByAgentBoundaries c1Parts,
        startPart "B2" "task two" ["NOTION"] ∈ s.parts →
          (s.boundary.map fun b => b.boundaryId) = some "B2") := by
  constructor
  · rfl
  · decide

/-- Claim C1 amended: for the interleaved scenario (B1-start, B2-start,
delta, delta, B1-end, B2-end, the deltas being any non-boundary-marker
parts), the reconstruction yields exactly two agent segments ordered by
first-start-seen, where the B1 segment is the contiguous slice from B1-start
through B1-end — including B2's interleaved start and both deltas — and the
B2 segment holds only the trailing B2-end: segments are contiguous index
ranges grouped by position, not by event identity. -/
theorem segmentPartsByAgentBoundaries_interleaved_spec
    (t1 t2 : String) (tk1 tk2 : List String) (r1 r2 : Option String) (d1 d2 : MsgPart)
    (h1 : isCreateAgentBoundaryMarker d1 = false)
    (h2 : isCreateAgentBoundaryMarker d2 = false) :
    segmentPartsByAgentBoundaries
        [startPart "B1" t1 tk1, startPart "B2" t2 tk2, d1, d2,
         endPart "B1" r1, endPart "B2" r2] =
      [⟨.agent,
        [startPart "B1" t1 tk1, startPart "B2" t2 tk2, d1, d2, endPart "B1" r1],
        "agent-B1", 0, some ⟨"B1", 0, 4, t1, tk1, r1⟩⟩,
       ⟨.agent, [endPart "B2" r2], "agent-B2", 5,
        some ⟨"B2", 1, 5, t2, tk2, r2⟩⟩] := by
  have e1 : ∀ (st : ScanState) (i : Nat), scanStep st i d1 = st :=
    fun st i => scanStep_inert st i d1 h1
  have e2 : ∀ (st : ScanState) (i : Nat), scanStep st i d2 = st :=
    fun st i => scanStep_inert st i d2 h2
  have hscan :
      scanFrom 0 ⟨[], []⟩
          [startPart "B1" t1 tk1, startPart "B2" t2 tk2, d1, d2,
           endPart "B1" r1, endPart "B2" r2] =
        ⟨[⟨"B1", 0, 4, t1, tk1, r1⟩, ⟨"B2", 1, 5, t2, tk2, r2⟩], []⟩ := by
    simp only [scanFrom]
    rw [e1, e2]
    simp [scanStep, startPart, endPart, mapSet, mapGet, mapErase]
  have hfind :
      findCreateAgentBoundaries
          [startPart "B1" t1 tk1, startPart "B2" t2 tk2, d1, d2,
           endPart "B1" r1, endPart "B2" r2] =
        [⟨"B1", 0, 4, t1, tk1, r1⟩, ⟨"B2", 1, 5, t2, tk2, r2⟩] := by
    rw [findCreateAgentBoundaries, if_neg (by simp)]
    simp only [mainBoundaries, hscan, residualBoundaries, List.map_nil, List.append_nil]
    rw [if_neg (by simp)]
    simp [sortByStartIndex, insertByStart]
  rw [segmentPartsByAgentBoundaries, if_neg (by simp)]
  simp only [hfind]
  simp [segLoop, segStep, sliceParts]

/-- Witness for the amended C1, at concrete delta parts. -/
theorem segmentPartsByAgentBoundaries_interleaved_spec_witness :
    segmentPartsByAgentBoundaries
        [startPart "B1" "task one" ["GMAIL"], startPart "B2" "task two" ["NOTION"],
         MsgPart.otherPart "delta-b1", MsgPart.otherPart "delta-b2",
         endPart "B1" (some "r1"), endPart "B2" (some "r2")] =
      [⟨.agent,
        [startPart "B1" "task one" ["GMAIL"], startPart "B2" "task two" ["NOTION"],
         MsgPart.otherPart "delta-b1", MsgPart.otherPart "delta-b2",
         endPart "B1" (some "r1")],
        "agent-B1", 0, some ⟨"B1", 0, 4, "task one", ["GMAIL"], some "r1"⟩⟩,
       ⟨.agent, [endPart "B2" (some "r2")], "agent-B2", 5,
        some ⟨"B2", 1, 5, "task two", ["NOTION"], some "r2"⟩⟩] :=
  segmentPartsByAgentBoundaries_interleaved_spec "task one" "task two"
    ["GMAIL"] ["NOTION"] (some "r1") (some "r2")
    (MsgPart.otherPart "delta-b1") (MsgPart.otherPart "delta-b2") rfl rfl

/-! ### Lemmas about the open-boundary map and the sort -/

/-- Entries of `mapSet` are the new pair or prior entries. -/
theorem mapSet_mem_sub (k : String) (v : OpenBoundaryInfo) :
    ∀ (m : List (String × OpenBoundaryInfo)) (kv : String × OpenBoundaryInfo),
      kv ∈ mapSet k v m → kv = (k, v) ∨ kv ∈ m := by
  intro m
  induction m with
  | nil => intro kv h; simpa [mapSet] using h
  | cons hd tl ih =>
    intro kv h
    rw [mapSet] at h
    by_cases he : hd.1 = k
    · rw [if_pos he] at h
      rcases List.mem_cons.mp h with rfl | h
      · exact Or.inl rfl
      · exact Or.inr (List.mem_cons_of_mem _ h)
    · rw [if_neg he] at h
      rcases List.mem_cons.mp h with rfl | h
      · exact Or.inr (List.mem_cons_self _ _)
      · rcases ih kv h with h1 | h1
        · exact Or.inl h1
        · exact Or.inr (List.mem_cons_of_mem _ h1)

/-- A successful `mapGet` exhibits a map entry. -/
theorem mapGet_mem (k : String) :
    ∀ (m : List (String × OpenBoundaryInfo)) (v : OpenBoundaryInfo),
      mapGet k m = some v → (k, v) ∈ m := by
  intro m
  induction m with
  | nil => intro v h; simp [mapGet] at h
  | cons hd tl ih =>
    intro v h
    obtain ⟨k1, v1⟩ := hd
    rw [mapGet] at h
    by_cases he : k1 = k
    · rw [if_pos he] at h
      obtain rfl := he
      obtain rfl : v1 = v := Option.some.inj h
      exact List.mem_cons_self _ _
    · rw [if_neg he] at h
      exact List.mem_cons_of_mem _ (ih v h)

/-- `mapErase` only removes entries. -/
theorem mapErase_sub (k : String) :
    ∀ (m : List (String × OpenBoundaryInfo)) (kv : String × OpenBoundaryInfo),
      kv ∈ mapErase k m → kv ∈ m := by
  intro m
  induction m with
  | nil => intro kv h; simp [mapErase] at h
  | cons hd tl ih =>
    intro kv h
    rw [mapErase] at h
    by_cases he : hd.1 = k
    · rw [if_pos he] at h
      exact List.mem_cons_of_mem _ h
    · rw [if_neg he] at h
      rcases List.mem_cons.mp h with rfl | h
      · exact List.mem_cons_self _ _
      · exact List.mem_cons_of_mem _ (ih kv h)

/-- `mapSet` never produces the empty map. -/
theorem mapSet_ne_nil (k : String) (v : OpenBoundaryInfo) :
    ∀ (m : List (String × OpenBoundaryInfo)), mapSet k v m ≠ [] := by
  intro m
  cases m with
  | nil => simp [mapSet]
  | cons hd tl =>
    rw [mapSet]
    by_cases he : hd.1 = k
    · rw [if_pos he]; simp
    · rw [if_neg he]; simp

/-- `mapSet` does not shrink the map. -/
theorem mapSet_length_ge (k : String) (v : OpenBoundaryInfo) :
    ∀ (m : List (String × OpenBoundaryInfo)), m.length ≤ (mapSet k v m).length := by
  intro m
  induction m with
  | nil => simp [mapSet]
  | cons hd tl ih =>
    rw [mapSet]
    by_cases he : hd.1 = k
    · rw [if_pos he]; simp
    · rw [if_neg he]; simpa using ih

/-- `mapErase` removes at most one entry. -/
theorem mapErase_length_ge (k : String) :
    ∀ (m : List (String × OpenBoundaryInfo)), m.length ≤ (mapErase k m).length + 1 := by
  intro m
  induction m with
  | nil => simp [mapErase]
  | cons hd tl ih =>
    rw [mapErase]
    by_cases he : hd.1 = k
    · rw [if_pos he]; simp
    · rw [if_neg he]; simp only [List.length_cons]; omega

/-- Insertion preserves membership. -/
theorem insertByStart_mem (b x : CreateAgentBoundary) :
    ∀ (l : List CreateAgentBoundary), x ∈ insertByStart b l ↔ x = b ∨ x ∈ l := by
  intro l
  induction l with
  | nil => simp [insertByStart]
  | cons hd tl ih =>
    rw [insertByStart]
    by_cases hc : hd.startIndex ≤ b.startIndex
    · rw [if_pos hc]
      simp only [List.mem_cons, ih]
      tauto
    · rw [if_neg hc]
      simp only [List.mem_cons]

/-- The insertion fold preserves membership. -/
theorem foldl_insertByStart_mem (x : CreateAgentBoundary) :
    ∀ (l acc : List CreateAgentBoundary),
      x ∈ List.foldl (fun a b => insertByStart b a) acc l ↔ x ∈ acc ∨ x ∈ l := by
  intro l
  induction l with
  | nil => simp
  | cons hd tl ih =>
    intro acc
    rw [List.foldl_cons, ih, insertByStart_mem]
    simp only [List.mem_cons]
    tauto

/-- Sorting preserves membership. -/
theorem sortByStartIndex_mem (x : CreateAgentBoundary) (l : List CreateAgentBoundary) :
    x ∈ sortByStartIndex l ↔ x ∈ l := by
  rw [sortByStartIndex, foldl_insertByStart_mem]
  simp

/-- Case equation for `scanStep`: a start marker overwrites/creates the open
entry for its id. -/
theorem scanStep_start_eq (st : ScanState) (i : Nat) (d : BoundaryData)
    (hg : ((d.btype == "start" || d.btype == "end") &&
      d.agentId == "create_agent") = true)
    (hs : (d.btype == "start") = true) :
    scanStep st i (.dataAgentBoundary d) =
      ⟨st.boundaries,
        mapSet d.boundaryId ⟨i, d.task.getD "", d.toolkits.getD []⟩
          st.openBoundaries⟩ := by
  simp only [scanStep]
  rw [if_pos hg, if_pos hs]

/-- Case equation for `scanStep`: an end marker with a matching open entry
closes the boundary. -/
theorem scanStep_end_some_eq (st : ScanState) (i : Nat) (d : BoundaryData)
    (info : OpenBoundaryInfo)
    (hg : ((d.btype == "start" || d.btype == "end") &&
      d.agentId == "create_agent") = true)
    (hs : ¬ (d.btype == "start") = true)
    (hget : mapGet d.boundaryId st.openBoundaries = some info) :
    scanStep st i (.dataAgentBoundary d) =
      ⟨st.boundaries ++
        [⟨d.boundaryId, info.startIndex, i, info.task, info.toolkits, d.result⟩],
        mapErase d.boundaryId st.openBoundaries⟩ := by
  simp only [scanStep]
  rw [if_pos hg, if_neg hs, hget]

/-- Case equation for `scanStep`: a dangling end marker is a no-op. -/
theorem scanStep_end_none_eq (st : ScanState) (i : Nat) (d : BoundaryData)
    (hg : ((d.btype == "start" || d.btype == "end") &&
      d.agentId == "create_agent") = true)
    (hs : ¬ (d.btype == "start") = true)
    (hget : mapGet d.boundaryId st.openBoundaries = none) :
    scanStep st i (.dataAgentBoundary d) = st := by
  simp only [scanStep]
  rw [if_pos hg, if_neg hs, hget]

/-- Case equation for `scanStep`: a data part failing the guard is a no-op. -/
theorem scanStep_notguard_eq (st : ScanState) (i : Nat) (d : BoundaryData)
    (hg : ¬ ((d.btype == "start" || d.btype == "end") &&
      d.agentId == "create_agent") = true) :
    scanStep st i (.dataAgentBoundary d) = st := by
  simp only [scanStep]
  rw [if_neg hg]

/-- Parametric invariant of the scan: if every start marker of the scanned
list validates `P` at its absolute index, and the incoming state validates
`P`, then every closed boundary and every open entry of the final state
validates `P` (boundary id paired with recorded start index). -/
theorem scanFrom_inv (P : String → Nat → Prop) (l : List MsgPart) :
    ∀ (i : Nat) (st : ScanState),
      (∀ b ∈ st.boundaries, P b.boundaryId b.startIndex) →
      (∀ kv ∈ st.openBoundaries, P kv.1 kv.2.startIndex) →
      (∀ k d, l.get? k = some (MsgPart.dataAgentBoundary d) → d.btype = "start" →
        d.agentId = "create_agent" → P d.boundaryId (i + k)) →
      (∀ b ∈ (scanFrom i st l).boundaries, P b.boundaryId b.startIndex) ∧
      (∀ kv ∈ (scanFrom i st l).openBoundaries, P kv.1 kv.2.startIndex) := by
  induction l with
  | nil => intro i st hb ho hl; exact ⟨hb, ho⟩
  | cons p rest ih =>
    intro i st hb ho hl
    rw [scanFrom]
    have hstep :
        (∀ b ∈ (scanStep st i p).boundaries, P b.boundaryId b.startIndex) ∧
        (∀ kv ∈ (scanStep st i p).openBoundaries, P kv.1 kv.2.startIndex) := by
      cases p with
      | dataAgentBoundary d =>
        by_cases hg : ((d.btype == "start" || d.btype == "end") &&
            d.agentId == "create_agent") = true
        · by_cases hs : (d.btype == "start") = true
          · rw [scanStep_start_eq st i d hg hs]
            have hP : P d.boundaryId i := by
              have := hl 0 d (by simp) (by simpa using hs)
                (by simpa using ((Bool.and_eq_true _ _).mp hg).2)
              simpa using this
            refine ⟨hb, ?_⟩
            intro kv hkv
            rcases mapSet_mem_sub _ _ _ kv hkv with rfl | hkv
            · exact hP
            · exact ho kv hkv
          · cases hget : mapGet d.boundaryId st.openBoundaries with
            | none =>
              rw [scanStep_end_none_eq st i d hg hs hget]
              exact ⟨hb, ho⟩
            | some info =>
              rw [scanStep_end_some_eq st i d info hg hs hget]
              refine ⟨?_, ?_⟩
              · intro b hbm
                rcases List.mem_append.mp hbm with hbm | hbm
                · exact hb b hbm
                · have hbeq : b = ⟨d.boundaryId, info.startIndex, i, info.task,
                      info.toolkits, d.result⟩ := by simpa using hbm
                  subst hbeq
                  exact ho (d.boundaryId, info) (mapGet_mem _ _ _ hget)
              · intro kv hkv
                exact ho kv (mapErase_sub _ _ kv hkv)
        · rw [scanStep_notguard_eq st i d hg]
          exact ⟨hb, ho⟩
      | toolInvocation name input => exact ⟨hb, ho⟩
      | otherPart ty => exact ⟨hb, ho⟩
    refine ih (i + 1) (scanStep st i p) hstep.1 hstep.2 ?_
    intro k d hget hbt hag
    have := hl (k + 1) d (by simpa using hget) hbt hag
    have harith : i + (k + 1) = i + 1 + k := by omega
    rwa [harith] at this

/-- The scan never shrinks the combined state size. -/
theorem scanSize_mono (l : List MsgPart) :
    ∀ (i : Nat) (st : ScanState), scanSize st ≤ scanSize (scanFrom i st l) := by
  induction l with
  | nil => intro i st; exact Nat.le_refl _
  | cons p rest ih =>
    intro i st
    rw [scanFrom]
    refine Nat.le_trans ?_ (ih (i + 1) (scanStep st i p))
    cases p with
    | dataAgentBoundary d =>
      by_cases hg : ((d.btype == "start" || d.btype == "end") &&
          d.agentId == "create_agent") = true
      · by_cases hs : (d.btype == "start") = true
        · rw [scanStep_start_eq st i d hg hs]
          have := mapSet_length_ge d.boundaryId
            ⟨i, d.task.getD "", d.toolkits.getD []⟩ st.openBoundaries
          simp only [scanSize]
          omega
        · cases hget : mapGet d.boundaryId st.openBoundaries with
          | none =>
            rw [scanStep_end_none_eq st i d hg hs hget]
          | some info =>
            rw [scanStep_end_some_eq st i d info hg hs hget]
            have := mapErase_length_ge d.boundaryId st.openBoundaries
            simp only [scanSize, List.length_append, List.length_cons,
              List.length_nil]
            omega
      · rw [scanStep_notguard_eq st i d hg]
    | toolInvocation name input => exact Nat.le_refl _
    | otherPart ty => exact Nat.le_refl _

/-- Once a start marker is scanned the state stays non-trivial. -/
theorem scanFrom_size_pos (l : List MsgPart) :
    ∀ (i : Nat) (st : ScanState), (∃ p ∈ l, isStartBoundaryMarker p = true) →
      1 ≤ scanSize (scanFrom i st l) := by
  induction l with
  | nil => intro i st h; simp at h
  | cons p rest ih =>
    intro i st h
    rw [scanFrom]
    rcases h with ⟨q, hq, hqs⟩
    rcases List.mem_cons.mp hq with rfl | hq
    · refine Nat.le_trans ?_ (scanSize_mono rest (i + 1) (scanStep st i q))
      cases q with
      | dataAgentBoundary d =>
        simp only [isStartBoundaryMarker] at hqs
        have hs : (d.btype == "start") = true :=
          ((Bool.and_eq_true _ _).mp hqs).1
        have hg : ((d.btype == "start" || d.btype == "end") &&
            d.agentId == "create_agent") = true := by
          rw [Bool.and_eq_true, Bool.or_eq_true]
          exact ⟨Or.inl hs, ((Bool.and_eq_true _ _).mp hqs).2⟩
        rw [scanStep_start_eq st i d hg hs]
        have hne := mapSet_ne_nil d.boundaryId
          ⟨i, d.task.getD "", d.toolkits.getD []⟩ st.openBoundaries
        have hlen : 0 < (mapSet d.boundaryId
            ⟨i, d.task.getD "", d.toolkits.getD []⟩ st.openBoundaries).length :=
          List.length_pos.mpr hne
        simp only [scanSize]
        omega
      | toolInvocation name input => simp [isStartBoundaryMarker] at hqs
      | otherPart ty => simp [isStartBoundaryMarker] at hqs
    · exact ih (i + 1) (scanStep st i p) ⟨q, hq, hqs⟩

/-- Shape of the boundaries produced by the defensive fallback pass. -/
theorem fallbackFrom_spec (len : Nat) :
    ∀ (l : List MsgPart) (i : Nat), ∀ b ∈ fallbackFrom len i l,
      b.endIndex = len - 1 ∧ i ≤ b.startIndex ∧
      ∃ p, l.get? (b.startIndex - i) = some p ∧ isCreateAgentToolPart p = true := by
  intro l
  induction l with
  | nil => intro i b h; simp [fallbackFrom] at h
  | cons p rest ih =>
    intro i b h
    rw [fallbackFrom] at h
    by_cases hp : isCreateAgentToolPart p = true
    · rw [if_pos hp] at h
      rcases List.mem_append.mp h with h | h
      · have hbeq : b = ⟨"fallback-" ++ toString i, i, len - 1,
            (extractCreateAgentMetadata p).task.getD "",
            (extractCreateAgentMetadata p).toolkits, none⟩ := by
          simpa using h
        subst hbeq
        exact ⟨rfl, Nat.le_refl _, p, by simp, hp⟩
      · obtain ⟨he, hi, q, hq, hqt⟩ := ih (i + 1) b h
        refine ⟨he, Nat.le_trans (Nat.le_succ _) hi, q, ?_, hqt⟩
        have harith : b.startIndex - i = (b.startIndex - (i + 1)) + 1 := by omega
        rw [harith]
        simpa using hq
    · rw [if_neg hp] at h
      simp only [List.nil_append] at h
      obtain ⟨he, hi, q, hq, hqt⟩ := ih (i + 1) b h
      refine ⟨he, Nat.le_trans (Nat.le_succ _) hi, q, ?_, hqt⟩
      have harith : b.startIndex - i = (b.startIndex - (i + 1)) + 1 := by omega
      rw [harith]
      simpa using hq

/-! ### C10: the fallback fires only when no boundary at all is recognized -/

/-- Claim C10: when at least one create_agent boundary-start occurs anywhere
in the list, `findCreateAgentBoundaries` returns the sorted scan result — no
fallback boundary is synthesized, and every returned boundary's `startIndex`
points at an actual boundary-start marker with its id (so a create_agent tool
invocation lacking markers contributes nothing); moreover every boundary the
fallback pass would synthesize spans from its tool invocation's index to the
end of the list. -/
theorem findCreateAgentBoundaries_fallback_spec (parts : List MsgPart)
    (hstart : ∃ p ∈ parts, isStartBoundaryMarker p = true) :
    findCreateAgentBoundaries parts = sortByStartIndex (mainBoundaries parts) ∧
    (∀ b ∈ findCreateAgentBoundaries parts, startAt parts b.boundaryId b.startIndex) ∧
    (∀ b ∈ fallbackScan parts, b.endIndex = parts.length - 1 ∧
      ∃ p, parts.get? b.startIndex = some p ∧ isCreateAgentToolPart p = true) := by
  have hne : parts ≠ [] := by
    rcases hstart with ⟨p, hp, _⟩
    exact List.ne_nil_of_mem hp
  have hlen0 : ¬ parts.length = 0 := by simpa [List.length_eq_zero] using hne
  have hmain : ¬ (mainBoundaries parts).length = 0 := by
    have hsize : (mainBoundaries parts).length =
        scanSize (scanFrom 0 ⟨[], []⟩ parts) := by
      simp [mainBoundaries, residualBoundaries, scanSize]
    have hpos := scanFrom_size_pos parts 0 ⟨[], []⟩ hstart
    omega
  have heq : findCreateAgentBoundaries parts =
      sortByStartIndex (mainBoundaries parts) := by
    simp only [findCreateAgentBoundaries]
    rw [if_neg hlen0, if_neg hmain]
  have hinv := scanFrom_inv (fun bid s => startAt parts bid s) parts 0 ⟨[], []⟩
    (by simp) (by simp)
    (by
      intro k d hget hbt hag
      refine ⟨d, ?_, hbt, hag, rfl⟩
      simpa using hget)
  refine ⟨heq, ?_, ?_⟩
  · intro b hb
    rw [heq, sortByStartIndex_mem] at hb
    rcases List.mem_append.mp (by simpa [mainBoundaries] using hb) with hb | hb
    · exact hinv.1 b hb
    · rw [residualBoundaries, List.mem_map] at hb
      obtain ⟨kv, hkv, rfl⟩ := hb
      exact hinv.2 kv hkv
  · intro b hb
    obtain ⟨he, _, q, hq, hqt⟩ := fallbackFrom_spec parts.length parts 0 b hb
    refine ⟨he, q, ?_, hqt⟩
    simpa using hq

/-- Witness for C10, at a concrete list holding a marker-less create_agent
tool invocation next to a marked boundary. -/
theorem findCreateAgentBoundaries_fallback_spec_witness :
    findCreateAgentBoundaries c10Parts = sortByStartIndex (mainBoundaries c10Parts) ∧
    (∀ b ∈ findCreateAgentBoundaries c10Parts,
      startAt c10Parts b.boundaryId b.startIndex) ∧
    (∀ b ∈ fallbackScan c10Parts, b.endIndex = c10Parts.length - 1 ∧
      ∃ p, c10Parts.get? b.startIndex = some p ∧ isCreateAgentToolPart p = true) :=
  findCreateAgentBoundaries_fallback_spec c10Parts
    ⟨startPart "B" "marked task" ["GMAIL"], by decide, by decide⟩

/-! ### Lemmas for prefix consistency of the segmentation -/

/-- Slices confined to a prefix agree between the prefix and the full list. -/
theorem sliceParts_agree (ps es : List MsgPart) (hpre : ps <+: es)
    (a b : Nat) (hb : b ≤ ps.length) :
    sliceParts ps a b = sliceParts es a b := by
  obtain ⟨r, rfl⟩ := hpre
  by_cases hab : a ≤ b
  · rw [sliceParts, sliceParts]
    rw [List.drop_append_of_le_length (Nat.le_trans hab hb)]
    rw [List.take_append_of_le_length]
    rw [List.length_drop]
    omega
  · have hz : b - a = 0 := by omega
    rw [sliceParts, sliceParts, hz]
    simp

/-- The trailing slice of the prefix, read off the full list. -/
theorem drop_eq_sliceParts (ps es : List MsgPart) (hpre : ps <+: es)
    (c : Nat) (hc : c ≤ ps.length) :
    sliceParts es c ps.length = ps.drop c := by
  obtain ⟨r, rfl⟩ := hpre
  rw [sliceParts]
  rw [List.drop_append_of_le_length hc]
  rw [List.take_append_of_le_length (by rw [List.length_drop])]
  have harith : ps.length - c = (ps.drop c).length := by rw [List.length_drop]
  rw [harith]
  simp

/-- Inserting an element keyed at or above an already-sorted low block lands
after the block. -/
theorem insertByStart_append_low (b : CreateAgentBoundary) :
    ∀ (low acc : List CreateAgentBoundary),
      (∀ a ∈ low, a.startIndex ≤ b.startIndex) →
      insertByStart b (low ++ acc) = low ++ insertByStart b acc := by
  intro low
  induction low with
  | nil => intro acc _; simp
  | cons hd tl ih =>
    intro acc hlow
    rw [List.cons_append, insertByStart,
      if_pos (hlow hd (List.mem_cons_self _ _)), ih acc
        (fun a ha => hlow a (List.mem_cons_of_mem _ ha)), List.cons_append]

/-- The insertion fold over high-keyed elements leaves a low block alone. -/
theorem foldl_insertByStart_append_low :
    ∀ (bs low acc : List CreateAgentBoundary),
      (∀ a ∈ low, ∀ b ∈ bs, a.startIndex ≤ b.startIndex) →
      List.foldl (fun a b => insertByStart b a) (low ++ acc) bs =
        low ++ List.foldl (fun a b => insertByStart b a) acc bs := by
  intro bs
  induction bs with
  | nil => intro low acc _; simp
  | cons hd tl ih =>
    intro low acc hlh
    rw [List.foldl_cons, List.foldl_cons]
    rw [insertByStart_append_low hd low acc
      (fun a ha => hlh a ha hd (List.mem_cons_self _ _))]
    exact ih low (insertByStart hd acc)
      (fun a ha b hb => hlh a ha b (List.mem_cons_of_mem _ hb))

/-- Sorting a list whose first block is keyed strictly below its second block
sorts the blocks independently. -/
theorem sortByStartIndex_append_split (A B : List CreateAgentBoundary)
    (h : ∀ a ∈ A, ∀ b ∈ B, a.startIndex ≤ b.startIndex) :
    sortByStartIndex (A ++ B) = sortByStartIndex A ++ sortByStartIndex B := by
  rw [sortByStartIndex, List.foldl_append]
  have hmem : ∀ a ∈ sortByStartIndex A, ∀ b ∈ B, a.startIndex ≤ b.startIndex :=
    fun a ha b hb => h a ((sortByStartIndex_mem a A).mp ha) b hb
  have := foldl_insertByStart_append_low B (sortByStartIndex A) [] hmem
  simpa [sortByStartIndex] using this

/-- Index bounds produced by the scan: when every open entry of the incoming
state has its start in `[i0, i)`, every boundary the scan adds has its start
in `[i0, end)` with the end inside the scanned range, and every remaining
open entry has its start in `[i0, i + length)`. -/
theorem scanFrom_bounds (i0 : Nat) (l : List MsgPart) :
    ∀ (i : Nat) (st : ScanState), i0 ≤ i →
      (∀ kv ∈ st.openBoundaries, i0 ≤ kv.2.startIndex ∧ kv.2.startIndex < i) →
      (∃ d, (scanFrom i st l).boundaries = st.boundaries ++ d ∧
        ∀ b ∈ d, i0 ≤ b.startIndex ∧ b.startIndex < b.endIndex ∧
          i ≤ b.endIndex ∧ b.endIndex < i + l.length) ∧
      (∀ kv ∈ (scanFrom i st l).openBoundaries,
        i0 ≤ kv.2.startIndex ∧ kv.2.startIndex < i + l.length) := by
  induction l with
  | nil =>
    intro i st hi ho
    refine ⟨⟨[], by simp [scanFrom], by simp⟩, ?_⟩
    intro kv hkv
    have := ho kv hkv
    simp only [scanFrom, List.length_nil]
    omega
  | cons p rest ih =>
    intro i st hi ho
    rw [scanFrom]
    have hmain :
        ((scanStep st i p).boundaries = st.boundaries ∨
          ∃ nb, (scanStep st i p).boundaries = st.boundaries ++ [nb] ∧
            i0 ≤ nb.startIndex ∧ nb.startIndex < nb.endIndex ∧ nb.endIndex = i) ∧
        (∀ kv ∈ (scanStep st i p).openBoundaries,
          i0 ≤ kv.2.startIndex ∧ kv.2.startIndex < i + 1) := by
      cases p with
      | dataAgentBoundary d =>
        by_cases hg : ((d.btype == "start" || d.btype == "end") &&
            d.agentId == "create_agent") = true
        · by_cases hs : (d.btype == "start") = true
          · rw [scanStep_start_eq st i d hg hs]
            refine ⟨Or.inl rfl, ?_⟩
            intro kv hkv
            rcases mapSet_mem_sub _ _ _ kv hkv with rfl | hkv
            · exact ⟨hi, Nat.lt_succ_self i⟩
            · have := ho kv hkv
              omega
          · cases hget : mapGet d.boundaryId st.openBoundaries with
            | none =>
              rw [scanStep_end_none_eq st i d hg hs hget]
              refine ⟨Or.inl rfl, ?_⟩
              intro kv hkv
              have := ho kv hkv
              omega
            | some info =>
              rw [scanStep_end_some_eq st i d info hg hs hget]
              refine ⟨Or.inr ⟨_, rfl, ?_⟩, ?_⟩
              · have := ho (d.boundaryId, info) (mapGet_mem _ _ _ hget)
                simp only at this
                exact ⟨this.1, this.2, rfl⟩
              · intro kv hkv
                have := ho kv (mapErase_sub _ _ kv hkv)
                omega
        · rw [scanStep_notguard_eq st i d hg]
          refine ⟨Or.inl rfl, ?_⟩
          intro kv hkv
          have := ho kv hkv
          omega
      | toolInvocation name input =>
        refine ⟨Or.inl rfl, ?_⟩
        intro kv hkv
        have := ho kv hkv
        omega
      | otherPart ty =>
        refine ⟨Or.inl rfl, ?_⟩
        intro kv hkv
        have := ho kv hkv
        omega
    obtain ⟨⟨drest, hdrest, hdb⟩, hopen⟩ :=
      ih (i + 1) (scanStep st i p) (by omega) hmain.2
    constructor
    · rcases hmain.1 with hb | ⟨nb, hb, hnb⟩
      · refine ⟨drest, by rw [hdrest, hb], ?_⟩
        intro b hbm
        have := hdb b hbm
        simp only [List.length_cons]
        omega
      · refine ⟨nb :: drest, ?_, ?_⟩
        · rw [hdrest, hb, List.append_assoc]
          rfl
        · intro b hbm
          rcases List.mem_cons.mp hbm with rfl | hbm
          · simp only [List.length_cons]
            omega
          · have := hdb b hbm
            simp only [List.length_cons]
            omega
    · intro kv hkv
      have := hopen kv hkv
      simp only [List.length_cons]
      omega

/-- Length of a slice. -/
theorem sliceParts_length (l : List MsgPart) (a b : Nat) :
    (sliceParts l a b).length = min (b - a) (l.length - a) := by
  rw [sliceParts, List.length_take, List.length_drop]

/-- The boundary loop distributes over list concatenation. -/
theorem segLoop_append (parts : List MsgPart) :
    ∀ (bs1 bs2 : List CreateAgentBoundary) (i : Nat) (st : SegState),
      segLoop parts i st (bs1 ++ bs2) =
        segLoop parts (i + bs1.length) (segLoop parts i st bs1) bs2 := by
  intro bs1
  induction bs1 with
  | nil => intro bs2 i st; simp [segLoop]
  | cons b rest ih =>
    intro bs2 i st
    rw [List.cons_append, segLoop, ih, segLoop]
    have harith : i + 1 + rest.length = i + (b :: rest).length := by
      simp [List.length_cons]; omega
    rw [harith]

/-- The cursor after one loop iteration. -/
theorem segStep_cursor (parts : List MsgPart) (st : SegState) (k : Nat)
    (b : CreateAgentBoundary) :
    (segStep parts st k b).cursor = max st.cursor (b.endIndex + 1) := rfl

/-- One loop iteration only appends segments. -/
theorem segStep_extend (parts : List MsgPart) (st : SegState) (k : Nat)
    (b : CreateAgentBoundary) :
    ∃ d, (segStep parts st k b).segments = st.segments ++ d := by
  simp only [segStep]
  split_ifs <;>
    first
      | exact ⟨[], (List.append_nil _).symm⟩
      | exact ⟨_, rfl⟩
      | exact ⟨_, List.append_assoc _ _ _⟩

/-- The whole loop only appends segments. -/
theorem segLoop_extend (parts : List MsgPart) :
    ∀ (bs : List CreateAgentBoundary) (i : Nat) (st : SegState),
      ∃ d, (segLoop parts i st bs).segments = st.segments ++ d := by
  intro bs
  induction bs with
  | nil => intro i st; exact ⟨[], by simp [segLoop]⟩
  | cons b rest ih =>
    intro i st
    rw [segLoop]
    obtain ⟨d1, hd1⟩ := segStep_extend parts st i b
    obtain ⟨d2, hd2⟩ := ih (i + 1) (segStep parts st i b)
    exact ⟨d1 ++ d2, by rw [hd2, hd1, List.append_assoc]⟩

/-- The loop cursor never decreases. -/
theorem segLoop_cursor_mono (parts : List MsgPart) :
    ∀ (bs : List CreateAgentBoundary) (i : Nat) (st : SegState),
      st.cursor ≤ (segLoop parts i st bs).cursor := by
  intro bs
  induction bs with
  | nil => intro i st; exact Nat.le_refl _
  | cons b rest ih =>
    intro i st
    rw [segLoop]
    refine Nat.le_trans ?_ (ih (i + 1) (segStep parts st i b))
    rw [segStep_cursor]
    exact Nat.le_max_left _ _

/-- One loop iteration computes identically over the prefix and the full
list as long as the boundary lies inside the prefix, and keeps the cursor
inside the prefix. -/
theorem segStep_congr (ps es : List MsgPart) (hpre : ps <+: es)
    (st : SegState) (k : Nat) (b : CreateAgentBoundary)
    (hs : b.startIndex < ps.length) (he : b.endIndex < ps.length)
    (hcur : st.cursor ≤ ps.length) :
    segStep ps st k b = segStep es st k b ∧
      (segStep ps st k b).cursor ≤ ps.length := by
  constructor
  · have e1 := sliceParts_agree ps es hpre st.cursor
      (max b.startIndex st.cursor) (by omega)
    have e2 := sliceParts_agree ps es hpre (max b.startIndex st.cursor)
      (max b.endIndex (max b.startIndex st.cursor - 1) + 1) (by omega)
    simp only [segStep, e1, e2]
  · rw [segStep_cursor]
    omega

/-- The loop over boundaries confined to the prefix computes identically on
the prefix and on the full list. -/
theorem segLoop_congr (ps es : List MsgPart) (hpre : ps <+: es) :
    ∀ (bs : List CreateAgentBoundary) (i : Nat) (st : SegState),
      (∀ b ∈ bs, b.startIndex < ps.length ∧ b.endIndex < ps.length) →
      st.cursor ≤ ps.length →
      segLoop ps i st bs = segLoop es i st bs ∧
        (segLoop ps i st bs).cursor ≤ ps.length := by
  intro bs
  induction bs with
  | nil => intro i st _ hcur; exact ⟨rfl, hcur⟩
  | cons b rest ih =>
    intro i st hbs hcur
    have hb := hbs b (List.mem_cons_self _ _)
    obtain ⟨hstep, hstepcur⟩ := segStep_congr ps es hpre st i b hb.1 hb.2 hcur
    rw [segLoop, segLoop, ← hstep]
    exact ih (i + 1) (segStep ps st i b)
      (fun c hc => hbs c (List.mem_cons_of_mem _ hc)) hstepcur

/-- Any segment present after one loop iteration is either old or starts in
`[cursor, cursor-after)`. -/
theorem segStep_seg_bounds (parts : List MsgPart) (st : SegState) (k : Nat)
    (b : CreateAgentBoundary) (hb : b.startIndex ≤ b.endIndex) :
    ∀ seg ∈ (segStep parts st k b).segments, seg ∈ st.segments ∨
      (st.cursor ≤ seg.startIndex ∧
        seg.startIndex < (segStep parts st k b).cursor) := by
  intro seg hseg
  rw [segStep_cursor]
  simp only [segStep] at hseg
  split_ifs at hseg with h1 h2 h3 h4
  all_goals
    first
      | exact Or.inl hseg
      | (rcases List.mem_append.mp hseg with hseg | hseg
         · exact Or.inl hseg
         · have hs := List.mem_singleton.mp hseg
           subst hs
           exact Or.inr (by dsimp only; omega))
      | (rcases List.mem_append.mp hseg with hseg | hseg
         · rcases List.mem_append.mp hseg with hseg | hseg
           · exact Or.inl hseg
           · have hs := List.mem_singleton.mp hseg
             subst hs
             exact Or.inr (by dsimp only; omega)
         · have hs := List.mem_singleton.mp hseg
           subst hs
           exact Or.inr (by dsimp only; omega))

/-- Any segment present after the loop is either old or starts in
`[cursor, cursor-after)`. -/
theorem segLoop_seg_bounds (parts : List MsgPart) :
    ∀ (bs : List CreateAgentBoundary) (i : Nat) (st : SegState),
      (∀ b ∈ bs, b.startIndex ≤ b.endIndex) →
      ∀ seg ∈ (segLoop parts i st bs).segments, seg ∈ st.segments ∨
        (st.cursor ≤ seg.startIndex ∧
          seg.startIndex < (segLoop parts i st bs).cursor) := by
  intro bs
  induction bs with
  | nil => intro i st _ seg hseg; exact Or.inl hseg
  | cons b rest ih =>
    intro i st hbs seg hseg
    rw [segLoop] at hseg ⊢
    have hstep := segStep_seg_bounds parts st i b (hbs b (List.mem_cons_self _ _))
    rcases ih (i + 1) (segStep parts st i b)
        (fun c hc => hbs c (List.mem_cons_of_mem _ hc)) seg hseg with hold | hnew
    · rcases hstep seg hold with hold2 | hnew2
      · exact Or.inl hold2
      · refine Or.inr ⟨hnew2.1, ?_⟩
        exact Nat.lt_of_lt_of_le hnew2.2
          (segLoop_cursor_mono parts rest (i + 1) (segStep parts st i b))
    · refine Or.inr ⟨?_, hnew.2⟩
      refine Nat.le_trans ?_ hnew.1
      rw [segStep_cursor]
      exact Nat.le_max_left _ _

/-- One loop iteration starting strictly below the boundary pushes the
intervening normal segment first; everything else it pushes starts at the
boundary's start index. -/
theorem segStep_at_gap (parts : List MsgPart) (st : SegState) (k : Nat)
    (b : CreateAgentBoundary) (hgap : st.cursor < b.startIndex)
    (hlen : st.cursor < parts.length) :
    ∃ d, (segStep parts st k b).segments =
        st.segments ++
          [⟨.normal, sliceParts parts st.cursor b.startIndex,
            "normal-" ++ toString st.cursor ++ "-" ++ toString k,
            st.cursor, none⟩] ++ d ∧
      (∀ seg ∈ d, seg.startIndex = b.startIndex) := by
  have hmax : max b.startIndex st.cursor = b.startIndex := by omega
  have hpos : 0 < (sliceParts parts st.cursor b.startIndex).length := by
    rw [sliceParts_length]
    omega
  simp only [segStep, hmax]
  rw [if_pos hgap, if_pos hpos]
  split_ifs with h3 h4
  all_goals
    first
      | (refine ⟨_, rfl, ?_⟩
         intro seg hseg
         have hs := List.mem_singleton.mp hseg
         subst hs
         rfl)
      | exact ⟨[], (List.append_nil _).symm, by simp⟩

/-- Prefix construction behind the keyless comparison: replacing the one
differing element (equal after `f`) and appending more. -/
theorem map_append_singleton_isPrefixOf (f : MessageSegment → MessageSegment)
    (A Y : List MessageSegment) (x y : MessageSegment) (hxy : f x = f y) :
    (A ++ [x]).map f <+: ((A ++ [y]) ++ Y).map f := by
  rw [List.map_append, List.map_append, List.map_append]
  simp only [List.map_cons, List.map_nil, hxy]
  exact List.prefix_append _ _

/-- Variant of the keyless-prefix construction with the suffix already
right-nested. -/
theorem map_append_singleton_isPrefixOf2 (f : MessageSegment → MessageSegment)
    (A Y : List MessageSegment) (x y : MessageSegment) (hxy : f x = f y) :
    (A ++ [x]).map f <+: (A ++ ([y] ++ Y)).map f := by
  rw [List.map_append, List.map_append, List.map_append]
  simp only [List.map_cons, List.map_nil, hxy]
  rw [← List.append_assoc]
  exact List.prefix_append _ _

/-! ### C2: prefix consistency of the reconstruction -/

/-- Claim C2 amended: for every event list `es` and prefix `ps` in which at
least one boundary has been closed and no boundary is left open, and which
ends exactly at a segment start of the full list's segmentation (or is the
whole list), the segments of the prefix — compared without their render keys
— are a prefix of the segments of the full list.  (As stated the claim fails
when the prefix contains no boundary marker, because the defensive fallback
then segments it differently; the render keys of trailing normal segments
also differ, and a boundary still open at the cut can later be overwritten.) -/
theorem segmentPartsByAgentBoundaries_prefix_spec (ps es : List MsgPart)
    (hpre : ps <+: es)
    (hclosed : (scanFrom 0 ⟨[], []⟩ ps).openBoundaries = [])
    (hsome : (scanFrom 0 ⟨[], []⟩ ps).boundaries ≠ [])
    (hcut : ps.length = es.length ∨
      ∃ seg ∈ segmentPartsByAgentBoundaries es, seg.startIndex = ps.length) :
    (segmentPartsByAgentBoundaries ps).map stripKey <+:
      (segmentPartsByAgentBoundaries es).map stripKey := by
  by_cases hlen : ps.length = es.length
  · obtain rfl := hpre.eq_of_length hlen
    exact List.prefix_refl _
  obtain ⟨r, rfl⟩ := hpre
  have hpre : ps <+: ps ++ r := List.prefix_append _ _
  have hlt : ps.length < (ps ++ r).length := by
    rw [List.length_append] at hlen ⊢
    omega
  replace hcut : ∃ seg ∈ segmentPartsByAgentBoundaries (ps ++ r),
      seg.startIndex = ps.length := by
    rcases hcut with h | h
    · exact absurd h hlen
    · exact h
  have hpsne : ps ≠ [] := by
    intro h
    rw [h] at hsome
    exact hsome rfl
  have hps0 : ¬ ps.length = 0 := by simpa [List.length_eq_zero] using hpsne
  have hes0 : ¬ (ps ++ r).length = 0 := by omega
  -- the scan over the prefix and its bounds
  obtain ⟨⟨dP, hdP, hdPb⟩, _⟩ :=
    scanFrom_bounds 0 ps 0 ⟨[], []⟩ (Nat.le_refl 0) (by simp)
  rw [List.nil_append] at hdP
  have hPbounds : ∀ b ∈ (scanFrom 0 ⟨[], []⟩ ps).boundaries,
      b.startIndex < b.endIndex ∧ b.endIndex < ps.length := by
    intro b hb
    rw [hdP] at hb
    have := hdPb b hb
    omega
  -- the scan over the rest and its bounds
  have hscanE : scanFrom 0 ⟨[], []⟩ (ps ++ r) =
      scanFrom ps.length (scanFrom 0 ⟨[], []⟩ ps) r := by
    rw [scanFrom_append, Nat.zero_add]
  obtain ⟨⟨dR, hdR, hdRb⟩, hopenE⟩ :=
    scanFrom_bounds ps.length r ps.length (scanFrom 0 ⟨[], []⟩ ps)
      (Nat.le_refl _) (by rw [hclosed]; simp)
  -- main boundary lists
  have hmainP : mainBoundaries ps = (scanFrom 0 ⟨[], []⟩ ps).boundaries := by
    rw [mainBoundaries, hclosed]
    simp [residualBoundaries]
  have hmainE : mainBoundaries (ps ++ r) =
      (scanFrom 0 ⟨[], []⟩ ps).boundaries ++
        (dR ++ residualBoundaries (ps ++ r).length
          (scanFrom ps.length (scanFrom 0 ⟨[], []⟩ ps) r).openBoundaries) := by
    rw [mainBoundaries, hscanE, hdR, List.append_assoc]
  have hNbounds : ∀ b ∈ dR ++ residualBoundaries (ps ++ r).length
      (scanFrom ps.length (scanFrom 0 ⟨[], []⟩ ps) r).openBoundaries,
      ps.length ≤ b.startIndex ∧ b.startIndex ≤ b.endIndex ∧
        b.endIndex < (ps ++ r).length := by
    intro b hb
    rcases List.mem_append.mp hb with hb | hb
    · have := hdRb b hb
      rw [List.length_append]
      omega
    · rw [residualBoundaries, List.mem_map] at hb
      obtain ⟨kv, hkv, rfl⟩ := hb
      have := hopenE kv hkv
      rw [List.length_append] at *
      simp only
      omega
  -- the sorted boundary lists
  have hsplit : sortByStartIndex (mainBoundaries (ps ++ r)) =
      sortByStartIndex (scanFrom 0 ⟨[], []⟩ ps).boundaries ++
        sortByStartIndex (dR ++ residualBoundaries (ps ++ r).length
          (scanFrom ps.length (scanFrom 0 ⟨[], []⟩ ps) r).openBoundaries) := by
    rw [hmainE]
    refine sortByStartIndex_append_split _ _ ?_
    intro a ha b hb
    have h1 := hPbounds a ha
    have h2 := hNbounds b hb
    omega
  have hsortPmem : ∀ b ∈ sortByStartIndex (scanFrom 0 ⟨[], []⟩ ps).boundaries,
      b.startIndex < ps.length ∧ b.endIndex < ps.length := by
    intro b hb
    have := hPbounds b ((sortByStartIndex_mem b _).mp hb)
    omega
  have hsortPle : ∀ b ∈ sortByStartIndex (scanFrom 0 ⟨[], []⟩ ps).boundaries,
      b.startIndex ≤ b.endIndex := by
    intro b hb
    have := hPbounds b ((sortByStartIndex_mem b _).mp hb)
    omega
  have hsortPne : sortByStartIndex (scanFrom 0 ⟨[], []⟩ ps).boundaries ≠ [] := by
    obtain ⟨x, hx⟩ := List.exists_mem_of_ne_nil _ hsome
    exact List.ne_nil_of_mem ((sortByStartIndex_mem x _).mpr hx)
  have hsortNmem : ∀ b ∈ sortByStartIndex (dR ++ residualBoundaries (ps ++ r).length
      (scanFrom ps.length (scanFrom 0 ⟨[], []⟩ ps) r).openBoundaries),
      ps.length ≤ b.startIndex ∧ b.startIndex ≤ b.endIndex ∧
        b.endIndex < (ps ++ r).length := by
    intro b hb
    exact hNbounds b ((sortByStartIndex_mem b _).mp hb)
  -- find equations
  have hsb0 : ¬ (scanFrom 0 ⟨[], []⟩ ps).boundaries.length = 0 := by
    simpa [List.length_eq_zero] using hsome
  have hfindP : findCreateAgentBoundaries ps =
      sortByStartIndex (scanFrom 0 ⟨[], []⟩ ps).boundaries := by
    simp only [findCreateAgentBoundaries]
    rw [if_neg hps0, hmainP, if_neg hsb0]
  have hfindE : findCreateAgentBoundaries (ps ++ r) =
      sortByStartIndex (scanFrom 0 ⟨[], []⟩ ps).boundaries ++
        sortByStartIndex (dR ++ residualBoundaries (ps ++ r).length
          (scanFrom ps.length (scanFrom 0 ⟨[], []⟩ ps) r).openBoundaries) := by
    have hmE0 : ¬ (mainBoundaries (ps ++ r)).length = 0 := by
      rw [hmainE, List.length_append]
      intro h
      exact hsb0 (by omega)
    simp only [findCreateAgentBoundaries]
    rw [if_neg hes0, if_neg hmE0, hsplit]
  -- the shared loop over the prefix's boundaries
  obtain ⟨hcong, hcurle⟩ := segLoop_congr ps (ps ++ r) hpre
    (sortByStartIndex (scanFrom 0 ⟨[], []⟩ ps).boundaries) 0 ⟨[], 0⟩
    hsortPmem (by simp)
  have hloopE : segLoop (ps ++ r) 0 ⟨[], 0⟩
      (sortByStartIndex (scanFrom 0 ⟨[], []⟩ ps).boundaries ++
        sortByStartIndex (dR ++ residualBoundaries (ps ++ r).length
          (scanFrom ps.length (scanFrom 0 ⟨[], []⟩ ps) r).openBoundaries)) =
      segLoop (ps ++ r)
        (sortByStartIndex (scanFrom 0 ⟨[], []⟩ ps).boundaries).length
        (segLoop ps 0 ⟨[], 0⟩
          (sortByStartIndex (scanFrom 0 ⟨[], []⟩ ps).boundaries))
        (sortByStartIndex (dR ++ residualBoundaries (ps ++ r).length
          (scanFrom ps.length (scanFrom 0 ⟨[], []⟩ ps) r).openBoundaries)) := by
    rw [segLoop_append, Nat.zero_add, ← hcong]
  -- segment output equations
  have hsortP0 : ¬ (sortByStartIndex (scanFrom 0 ⟨[], []⟩ ps).boundaries).length = 0 := by
    simpa [List.length_eq_zero] using hsortPne
  have hsegP : segmentPartsByAgentBoundaries ps =
      (if (segLoop ps 0 ⟨[], 0⟩
            (sortByStartIndex (scanFrom 0 ⟨[], []⟩ ps).boundaries)).cursor <
          ps.length then
        (segLoop ps 0 ⟨[], 0⟩
          (sortByStartIndex (scanFrom 0 ⟨[], []⟩ ps).boundaries)).segments ++
          [⟨.normal,
            ps.drop (segLoop ps 0 ⟨[], 0⟩
              (sortByStartIndex (scanFrom 0 ⟨[], []⟩ ps).boundaries)).cursor,
            "normal-" ++ toString (segLoop ps 0 ⟨[], 0⟩
              (sortByStartIndex (scanFrom 0 ⟨[], []⟩ ps).boundaries)).cursor ++
              "-final",
            (segLoop ps 0 ⟨[], 0⟩
              (sortByStartIndex (scanFrom 0 ⟨[], []⟩ ps).boundaries)).cursor,
            none⟩]
      else
        (segLoop ps 0 ⟨[], 0⟩
          (sortByStartIndex (scanFrom 0 ⟨[], []⟩ ps).boundaries)).segments) := by
    simp only [segmentPartsByAgentBoundaries]
    rw [if_neg hps0, hfindP, if_neg hsortP0]
  have hsortE0 : ¬ (sortByStartIndex (scanFrom 0 ⟨[], []⟩ ps).boundaries ++
      sortByStartIndex (dR ++ residualBoundaries (ps ++ r).length
        (scanFrom ps.length (scanFrom 0 ⟨[], []⟩ ps) r).openBoundaries)).length = 0 := by
    rw [List.length_append]
    intro h
    exact hsortP0 (by omega)
  have hsegE : segmentPartsByAgentBoundaries (ps ++ r) =
      (if (segLoop (ps ++ r)
            (sortByStartIndex (scanFrom 0 ⟨[], []⟩ ps).boundaries).length
            (segLoop ps 0 ⟨[], 0⟩
              (sortByStartIndex (scanFrom 0 ⟨[], []⟩ ps).boundaries))
            (sortByStartIndex (dR ++ residualBoundaries (ps ++ r).length
              (scanFrom ps.length (scanFrom 0 ⟨[], []⟩ ps) r).openBoundaries))).cursor <
          (ps ++ r).length then
        (segLoop (ps ++ r)
          (sortByStartIndex (scanFrom 0 ⟨[], []⟩ ps).boundaries).length
          (segLoop ps 0 ⟨[], 0⟩
            (sortByStartIndex (scanFrom 0 ⟨[], []⟩ ps).boundaries))
          (sortByStartIndex (dR ++ residualBoundaries (ps ++ r).length
            (scanFrom ps.length (scanFrom 0 ⟨[], []⟩ ps) r).openBoundaries))).segments ++
          [⟨.normal,
            (ps ++ r).drop (segLoop (ps ++ r)
              (sortByStartIndex (scanFrom 0 ⟨[], []⟩ ps).boundaries).length
              (segLoop ps 0 ⟨[], 0⟩
                (sortByStartIndex (scanFrom 0 ⟨[], []⟩ ps).boundaries))
              (sortByStartIndex (dR ++ residualBoundaries (ps ++ r).length
                (scanFrom ps.length (scanFrom 0 ⟨[], []⟩ ps) r).openBoundaries))).cursor,
            "normal-" ++ toString (segLoop (ps ++ r)
              (sortByStartIndex (scanFrom 0 ⟨[], []⟩ ps).boundaries).length
              (segLoop ps 0 ⟨[], 0⟩
                (sortByStartIndex (scanFrom 0 ⟨[], []⟩ ps).boundaries))
              (sortByStartIndex (dR ++ residualBoundaries (ps ++ r).length
                (scanFrom ps.length (scanFrom 0 ⟨[], []⟩ ps) r).openBoundaries))).cursor ++
              "-final",
            (segLoop (ps ++ r)
              (sortByStartIndex (scanFrom 0 ⟨[], []⟩ ps).boundaries).length
              (segLoop ps 0 ⟨[], 0⟩
                (sortByStartIndex (scanFrom 0 ⟨[], []⟩ ps).boundaries))
              (sortByStartIndex (dR ++ residualBoundaries (ps ++ r).length
                (scanFrom ps.length (scanFrom 0 ⟨[], []⟩ ps) r).openBoundaries))).cursor,
            none⟩]
      else
        (segLoop (ps ++ r)
          (sortByStartIndex (scanFrom 0 ⟨[], []⟩ ps).boundaries).length
          (segLoop ps 0 ⟨[], 0⟩
            (sortByStartIndex (scanFrom 0 ⟨[], []⟩ ps).boundaries))
          (sortByStartIndex (dR ++ residualBoundaries (ps ++ r).length
            (scanFrom ps.length (scanFrom 0 ⟨[], []⟩ ps) r).openBoundaries))).segments) := by
    simp only [segmentPartsByAgentBoundaries]
    rw [if_neg hes0, hfindE, if_neg hsortE0, hloopE]
  -- bound on the prefix loop's own segments
  have hstPsegs : ∀ seg ∈ (segLoop ps 0 ⟨[], 0⟩
      (sortByStartIndex (scanFrom 0 ⟨[], []⟩ ps).boundaries)).segments,
      seg.startIndex < (segLoop ps 0 ⟨[], 0⟩
        (sortByStartIndex (scanFrom 0 ⟨[], []⟩ ps).boundaries)).cursor := by
    intro seg hseg
    rcases segLoop_seg_bounds ps _ 0 ⟨[], 0⟩ hsortPle seg hseg with h | h
    · simp at h
    · exact h.2
  rw [hsegP, hsegE]
  by_cases hc : (segLoop ps 0 ⟨[], 0⟩
      (sortByStartIndex (scanFrom 0 ⟨[], []⟩ ps).boundaries)).cursor < ps.length
  case neg =>
    -- the prefix's cursor sits exactly at the cut: its output is the loop
    -- segments, and the full list only appends
    rw [if_neg hc]
    obtain ⟨d2, hd2⟩ := segLoop_extend (ps ++ r)
      (sortByStartIndex (dR ++ residualBoundaries (ps ++ r).length
        (scanFrom ps.length (scanFrom 0 ⟨[], []⟩ ps) r).openBoundaries))
      (sortByStartIndex (scanFrom 0 ⟨[], []⟩ ps).boundaries).length
      (segLoop ps 0 ⟨[], 0⟩ (sortByStartIndex (scanFrom 0 ⟨[], []⟩ ps).boundaries))
    split_ifs with hcE
    · rw [hd2, List.append_assoc]
      rw [List.map_append]
      exact List.prefix_append _ _
    · rw [hd2]
      rw [List.map_append]
      exact List.prefix_append _ _
  case pos =>
    rw [if_pos hc]
    -- case on whether any new boundary exists
    cases hNsort : sortByStartIndex (dR ++ residualBoundaries (ps ++ r).length
        (scanFrom ps.length (scanFrom 0 ⟨[], []⟩ ps) r).openBoundaries) with
    | nil =>
      -- no new boundary: the full list's trailing normal segment straddles
      -- the cut, contradicting the cut hypothesis
      exfalso
      rw [hsegE, hNsort] at hcut
      simp only [segLoop] at hcut
      rw [if_pos (by omega : (segLoop ps 0 ⟨[], 0⟩
        (sortByStartIndex (scanFrom 0 ⟨[], []⟩ ps).boundaries)).cursor <
          (ps ++ r).length)] at hcut
      obtain ⟨seg, hsegmem, hsegstart⟩ := hcut
      rcases List.mem_append.mp hsegmem with hm | hm
      · have := hstPsegs seg hm
        omega
      · have : seg.startIndex = (segLoop ps 0 ⟨[], 0⟩
            (sortByStartIndex (scanFrom 0 ⟨[], []⟩ ps).boundaries)).cursor := by
          have hs := List.mem_singleton.mp hm
          rw [hs]
        omega
    | cons b rest =>
      have hbfacts := hsortNmem b (by rw [hNsort]; exact List.mem_cons_self _ _)
      have hrestle : ∀ c ∈ rest, c.startIndex ≤ c.endIndex := by
        intro c hcm
        have := hsortNmem c (by rw [hNsort]; exact List.mem_cons_of_mem _ hcm)
        omega
      obtain ⟨dA, hstepseg, hdA⟩ := segStep_at_gap (ps ++ r)
        (segLoop ps 0 ⟨[], 0⟩ (sortByStartIndex (scanFrom 0 ⟨[], []⟩ ps).boundaries))
        (sortByStartIndex (scanFrom 0 ⟨[], []⟩ ps).boundaries).length b
        (by omega) (by rw [List.length_append]; omega)
      have hstepcur : (segStep (ps ++ r)
          (segLoop ps 0 ⟨[], 0⟩ (sortByStartIndex (scanFrom 0 ⟨[], []⟩ ps).boundaries))
          (sortByStartIndex (scanFrom 0 ⟨[], []⟩ ps).boundaries).length b).cursor =
          b.endIndex + 1 := by
        rw [segStep_cursor]
        omega
      obtain ⟨d2, hd2⟩ := segLoop_extend (ps ++ r) rest
        ((sortByStartIndex (scanFrom 0 ⟨[], []⟩ ps).boundaries).length + 1)
        (segStep (ps ++ r)
          (segLoop ps 0 ⟨[], 0⟩ (sortByStartIndex (scanFrom 0 ⟨[], []⟩ ps).boundaries))
          (sortByStartIndex (scanFrom 0 ⟨[], []⟩ ps).boundaries).length b)
      by_cases hbeq : b.startIndex = ps.length
      case pos =>
        -- the first new boundary starts exactly at the cut: the full list's
        -- intervening normal segment equals the prefix's trailing normal
        -- segment up to its key
        have hslice : sliceParts (ps ++ r)
            (segLoop ps 0 ⟨[], 0⟩
              (sortByStartIndex (scanFrom 0 ⟨[], []⟩ ps).boundaries)).cursor
            b.startIndex =
            ps.drop (segLoop ps 0 ⟨[], 0⟩
              (sortByStartIndex (scanFrom 0 ⟨[], []⟩ ps).boundaries)).cursor := by
          rw [hbeq]
          exact drop_eq_sliceParts ps (ps ++ r) hpre _ (by omega)
        split_ifs with hcE
        all_goals
          rw [segLoop, hd2, hstepseg, hslice]
        all_goals
          simp only [List.append_assoc]
        · exact map_append_singleton_isPrefixOf2 stripKey _ _ _ _ rfl
        · exact map_append_singleton_isPrefixOf2 stripKey _ _ _ _ rfl
      case neg =>
        -- the first new boundary starts beyond the cut: no segment of the
        -- full list starts at the cut, contradicting the cut hypothesis
        exfalso
        rw [hsegE, hNsort] at hcut
        have hall : ∀ seg ∈ (segLoop (ps ++ r)
            ((sortByStartIndex (scanFrom 0 ⟨[], []⟩ ps).boundaries).length + 1)
            (segStep (ps ++ r)
              (segLoop ps 0 ⟨[], 0⟩
                (sortByStartIndex (scanFrom 0 ⟨[], []⟩ ps).boundaries))
              (sortByStartIndex (scanFrom 0 ⟨[], []⟩ ps).boundaries).length b)
            rest).segments, seg.startIndex ≠ ps.length := by
          intro seg hseg
          rcases segLoop_seg_bounds (ps ++ r) rest _ _ hrestle seg hseg with hm | hm
          · rw [hstepseg] at hm
            rcases List.mem_append.mp hm with hm | hm
            · rcases List.mem_append.mp hm with hm | hm
              · have := hstPsegs seg hm
                omega
              · have hs := List.mem_singleton.mp hm
                rw [hs]
                dsimp only
                omega
            · have := hdA seg hm
              omega
          · rw [hstepcur] at hm
            omega
        obtain ⟨seg, hsegmem, hsegstart⟩ := hcut
        rw [segLoop] at hsegmem
        split_ifs at hsegmem with hcE
        · rcases List.mem_append.mp hsegmem with hm | hm
          · exact hall seg hm hsegstart
          · have hs := List.mem_singleton.mp hm
            rw [hs] at hsegstart
            dsimp only at hsegstart
            have hcur1 : (segStep (ps ++ r)
                (segLoop ps 0 ⟨[], 0⟩
                  (sortByStartIndex (scanFrom 0 ⟨[], []⟩ ps).boundaries))
                (sortByStartIndex (scanFrom 0 ⟨[], []⟩ ps).boundaries).length
                b).cursor ≤ (segLoop (ps ++ r)
                ((sortByStartIndex (scanFrom 0 ⟨[], []⟩ ps).boundaries).length + 1)
                (segStep (ps ++ r)
                  (segLoop ps 0 ⟨[], 0⟩
                    (sortByStartIndex (scanFrom 0 ⟨[], []⟩ ps).boundaries))
                  (sortByStartIndex (scanFrom 0 ⟨[], []⟩ ps).boundaries).length b)
                rest).cursor := segLoop_cursor_mono _ _ _ _
            rw [hstepcur] at hcur1
            omega
        · exact hall seg hsegmem hsegstart

/-- Claim C2 counterexample: the prefix `c2P` of `c2E` ends exactly at the
start of `c2E`'s agent segment, yet its own segmentation is not a prefix of
`c2E`'s (even ignoring render keys): with no boundary marker yet seen, the
defensive fallback turns the prefix's create_agent tool invocation into an
agent segment, while the full list segments it as a normal span. -/
theorem segmentPartsByAgentBoundaries_prefix_counterexample :
    (∃ seg ∈ segmentPartsByAgentBoundaries c2E, seg.startIndex = c2P.length) ∧
    ¬ ((segmentPartsByAgentBoundaries c2P).map stripKey <+:
      (segmentPartsByAgentBoundaries c2E).map stripKey) := by
  constructor
  · decide
  · decide

/-- Witness for the amended C2, at a concrete prefix with one closed
boundary and a full list extending it by a trailing normal part. -/
theorem segmentPartsByAgentBoundaries_prefix_spec_witness :
    (segmentPartsByAgentBoundaries c2WP).map stripKey <+:
      (segmentPartsByAgentBoundaries c2WE).map stripKey :=
  segmentPartsByAgentBoundaries_prefix_spec c2WP c2WE
    ⟨[MsgPart.otherPart "tail"], rfl⟩ (by decide) (by decide)
    (Or.inr (by decide))
